import Mathlib

/-!
Shallow embedding of the artwork-generation engine of `treat-toolbox`
(`src/functions/src/ArtworkGenerator.ts`), together with theorems settling
the claims of the specification against it.

Modelling conventions:
* JavaScript floating-point numbers (trait-value rarities and the random
  fractions drawn by `randomNumber`) are modelled as exact, unnormalized
  fractions (`Frac` below) so that every definition evaluates inside the
  kernel.  The claims under study are about the selection logic, not about
  float rounding.
* All randomness (`random-number-csprng` in `randomNumber`, `Math.random`
  on the always-unique path) is modelled by one explicit stream of
  fractions, consumed head-first; asynchronous draws are sequentialized in
  source order.
* IO-only data (file paths, bucket uploads, log strings, `name` fields)
  is dropped; `compositeImages` succeeds exactly when it receives at least
  one non-null input layer, which is its behaviour up to the external
  `sharp` rasterizer.
* The outer per-item loop of `generate` is not structurally terminating
  (its `continue` path does not advance the index), so it is embedded with
  explicit fuel: `none` means the loop was still running when the fuel ran
  out, `some composites` means the function returned.
-/

/-- An exact fraction `num / den` (denominators are positive in all intended
uses).  This models the JavaScript float arithmetic of the generator with
exact rational arithmetic that the kernel can evaluate. -/
structure Frac where
  num : Int
  den : Int
deriving DecidableEq, Repr

instance : LE Frac := ⟨fun a b => a.num * b.den ≤ b.num * a.den⟩

instance : DecidableRel (fun a b : Frac => a ≤ b) :=
  fun a b => Int.decLe (a.num * b.den) (b.num * a.den)

/-- Exact addition of fractions (cross multiplication, no normalization). -/
def Frac.add (a b : Frac) : Frac :=
  ⟨a.num * b.den + b.num * a.den, a.den * b.den⟩

/-- The fraction `0`. -/
def Frac.zero : Frac := ⟨0, 1⟩

/-- Floor of `r * n` as an integer (the `Math.floor(Math.random() * values.length)`
index computation of the always-unique branch of `randomValue`). -/
def Frac.floorMul (r : Frac) (n : Nat) : Int :=
  (r.num * (n : Int)).fdiv r.den

/-- JavaScript indexing `values[i]` for a possibly out-of-range integer index:
out-of-range or negative access yields `undefined`, modelled as `none`. -/
def getAtInt (l : List α) (i : Int) : Option α :=
  if i < 0 then none else l[i.toNat]?

/-! ## Data model

The record types come from `models/models.ts`, which is not under `src/`;
their fields are reconstructed from the way `ArtworkGenerator.ts` uses them
and from §3 of the specification.  Log-only fields (`name`,
`bucketFilename`, `externalURL`) are omitted. -/

/-- A trait: id, stacking order, and the always-unique flag (spec §3). -/
structure Trait where
  id : String
  zIndex : Int
  isAlwaysUnique : Bool
deriving DecidableEq, Repr

/-- A trait value: id and rarity weight (spec §3). -/
structure TraitValue where
  id : String
  rarity : Frac
deriving DecidableEq, Repr

/-- An image layer: id, optional owning trait value, optional companion
layer reference with its own z-index (spec §3). -/
structure ImageLayer where
  id : String
  traitValueId : Option String
  companionLayerId : Option String
  companionLayerZIndex : Option Int
deriving DecidableEq, Repr

/-- One slot of a draw: trait, chosen value (or null), resolved layer. -/
structure TraitValuePair where
  trait : Trait
  traitValue : Option TraitValue
  imageLayer : Option ImageLayer
deriving DecidableEq, Repr

instance : Inhabited TraitValuePair := ⟨⟨⟨"", 0, false⟩, none, none⟩⟩

/-- An image layer tagged with its effective z-index, as accumulated by
`sortedImageLayersInjectingCompanions`. -/
structure OrderedImageLayer where
  imageLayer : ImageLayer
  zIndex : Int
deriving DecidableEq, Repr

/-- The closed variant of conflict resolutions (spec §3, §4.2);
`Trait1None`/`Trait2None` are the spec's DropFirst/DropSecond and
`Trait1Random`/`Trait2Random` its RandomizeFirst/RandomizeSecond. -/
inductive ConflictResolutionType where
  | Trait1None
  | Trait2None
  | Trait1Random
  | Trait2Random
deriving DecidableEq, Repr

/-- A declared incompatibility between two (trait, optional value) picks. -/
structure Conflict where
  trait1Id : String
  trait2Id : String
  trait1ValueId : Option String
  trait2ValueId : Option String
  resolutionType : ConflictResolutionType
deriving DecidableEq, Repr

/-- Canonical fingerprint type of a draw: the multiset of
`(traitId, traitValueId or null)` pairs. -/
abbrev TraitsHash := Multiset (String × Option String)

/-- Modelled from the spec: `ImageComposites.traitsHash` lives in
`models/models.ts`, which is not under `src/`.  Spec §4.3 describes it as a
canonical, order-independent-by-trait encoding of the
`(traitId, traitValueId|null)` pairs, sufficient to detect duplicate
combinations; the multiset of those pairs is exactly that. -/
def traitsHash (pairs : List TraitValuePair) : TraitsHash :=
  Multiset.ofList (pairs.map fun p => (p.trait.id, p.traitValue.map TraitValue.id))

/-- Modelled from the spec: `ImageComposites.isUniqueTraitsHash` (external
registry, spec §4.3) checks whether the hash has been used before within the
run scope; `used` is the list of fingerprints of the composites persisted so
far in the scope. -/
def isUniqueTraitsHash (h : TraitsHash) (used : List TraitsHash) : Bool :=
  decide (h ∉ used)

/-- A persisted composite: its ordered trait-value pairs and their
fingerprint (spec §3; `externalURL` is IO-only and omitted). -/
structure ImageComposite where
  traits : List TraitValuePair
  traitsHash : TraitsHash
deriving DecidableEq

/-- The in-memory `traitValues` dictionary of `generate`, keyed by trait id. -/
abbrev TVDict := List (String × List TraitValue)

/-- Dictionary read `traitValues[traitId]` (callers only read keys that the
prefetch loop populated; a missing key is modelled as the empty pool). -/
def tvdGet (d : TVDict) (traitId : String) : List TraitValue :=
  ((d.find? fun e => e.1 == traitId).map Prod.snd).getD []

/-- Dictionary write `traitValues[traitId] = values`. -/
def tvdSet (d : TVDict) (traitId : String) (values : List TraitValue) : TVDict :=
  d.map fun e => if e.1 == traitId then (e.1, values) else e

/-- The prefetch loop of `generate` (lines 92-101): one dictionary entry per
trait, with the external `TraitValues.all` reader abstracted as
`fetchValues`. -/
def prefetchTraitValues (traits : List Trait) (fetchValues : Trait → List TraitValue) :
    TVDict :=
  traits.map fun trait => (trait.id, fetchValues trait)

/-! ## RarityWeightedSampler (`randomValue`, lines 514-576) -/

/-- The `randomNumber` draw (lines 569-576): take the next fraction from the
stream. -/
def randomNumber (rs : List Frac) : Frac × List Frac :=
  (rs.headD Frac.zero, rs.tail)

/-- The inner segment walk of `randomValue` (lines 539-552): accumulate the
running rarity sum and return the first value whose cumulative sum reaches
the drawn number. -/
def weightedWalk (randomNumber : Frac) (totalRarityRangeMax : Frac) :
    List TraitValue → Option TraitValue
  | [] => none
  | value :: rest =>
    if randomNumber ≤ totalRarityRangeMax.add value.rarity then some value
    else weightedWalk randomNumber (totalRarityRangeMax.add value.rarity) rest

/-- The bounded retry loop of `randomValue` (lines 530-556), with the number
of remaining attempts as the recursion measure (`maxAttempts = 10` at entry;
the `attempts == maxAttempts` test at the top of the `do` block is the
`0` case). -/
def randomValueAttempts (values : List TraitValue) (excludeTraitValueId : Option String) :
    Nat → List Frac → Option TraitValue × List Frac
  | 0, rs => (none, rs)
  | attemptsLeft + 1, rs =>
    let (r, rs') := randomNumber rs
    let value := weightedWalk r Frac.zero values
    if excludeTraitValueId.isSome && value.map TraitValue.id == excludeTraitValueId then
      randomValueAttempts values excludeTraitValueId attemptsLeft rs'
    else (value, rs')

/-- `randomValue` (lines 514-559).  The always-unique branch picks a uniform
index and returns before the exclusion machinery; the weighted branch runs
at most 10 attempts. -/
def randomValue (values : List TraitValue) (isTraitAlwaysUnique : Bool)
    (excludeTraitValueId : Option String) (rs : List Frac) :
    Option TraitValue × List Frac :=
  if isTraitAlwaysUnique then
    let (r, rs') := randomNumber rs
    (getAtInt values (r.floorMul values.length), rs')
  else
    randomValueAttempts values excludeTraitValueId 10 rs

/-- One draw of the `randomTraitValues` fan-out: append the pair for one
trait, threading the random stream. -/
def randomTraitValueStep (traitValues : TVDict)
    (st : List TraitValuePair × List Frac) (trait : Trait) :
    List TraitValuePair × List Frac :=
  let drawn := randomValue (tvdGet traitValues trait.id) trait.isAlwaysUnique none st.2
  (st.1 ++ [⟨trait, drawn.1, none⟩], drawn.2)

/-- `randomTraitValues` (lines 352-367): one pair per trait, drawn in trait
order (the `Promise.all` fan-out is sequentialized in source order). -/
def randomTraitValues (traits : List Trait) (traitValues : TVDict) (rs : List Frac) :
    List TraitValuePair × List Frac :=
  traits.foldl (randomTraitValueStep traitValues) ([], rs)

/-! ## ConflictResolver (`resolveConflicts`, lines 369-475) -/

/-- The per-side value guard of the conflict loop (lines 391-413): with no
configured value id the side always matches; with one, some pair of the
draw must carry exactly that (trait, value) combination, or the conflict is
skipped. -/
def conflictValueOk (traitValuePairs : List TraitValuePair) (traitId : String) :
    Option String → Bool
  | none => true
  | some v1 =>
    (traitValuePairs.findIdx? fun p =>
      p.trait.id == traitId && p.traitValue.map TraitValue.id == some v1).isSome

/-- One iteration of the conflict loop of `resolveConflicts`
(lines 374-472). -/
def resolveConflict (traitValuesDict : TVDict)
    (st : List TraitValuePair × List Frac) (conflict : Conflict) :
    List TraitValuePair × List Frac :=
  let traitValuePairs := st.1
  let rs := st.2
  match traitValuePairs.findIdx? (fun p => p.trait.id == conflict.trait1Id) with
  | none => (traitValuePairs, rs)
  | some trait1Index =>
    match traitValuePairs.findIdx? (fun p => p.trait.id == conflict.trait2Id) with
    | none => (traitValuePairs, rs)
    | some trait2Index =>
      if conflictValueOk traitValuePairs conflict.trait1Id conflict.trait1ValueId &&
          conflictValueOk traitValuePairs conflict.trait2Id conflict.trait2ValueId then
        match conflict.resolutionType with
        | .Trait1None =>
          (traitValuePairs.set trait1Index
            { traitValuePairs.getD trait1Index default with traitValue := none }, rs)
        | .Trait2None =>
          (traitValuePairs.set trait2Index
            { traitValuePairs.getD trait2Index default with traitValue := none }, rs)
        | .Trait1Random =>
          let pair1 := traitValuePairs.getD trait1Index default
          let redraw1 := randomValue (tvdGet traitValuesDict pair1.trait.id)
            pair1.trait.isAlwaysUnique (pair1.traitValue.map TraitValue.id) rs
          (traitValuePairs.set trait1Index { pair1 with traitValue := redraw1.1 }, redraw1.2)
        | .Trait2Random =>
          let pair2 := traitValuePairs.getD trait2Index default
          let redraw2 := randomValue (tvdGet traitValuesDict pair2.trait.id)
            pair2.trait.isAlwaysUnique (pair2.traitValue.map TraitValue.id) rs
          (traitValuePairs.set trait2Index { pair2 with traitValue := redraw2.1 }, redraw2.2)
      else (traitValuePairs, rs)

/-- `resolveConflicts` (lines 369-475): process the conflicts in stored
order, mutating the draw in place. -/
def resolveConflicts (traitValuesDict : TVDict) (traitValuePairs : List TraitValuePair)
    (conflicts : List Conflict) (rs : List Frac) : List TraitValuePair × List Frac :=
  conflicts.foldl (resolveConflict traitValuesDict) (traitValuePairs, rs)

/-! ## Always-unique depletion (`removeUsedAlwaysUniqueTraitValues`,
lines 477-501) -/

/-- The trait value of `composite` found for trait `trait` (lines 486-489:
`composite.traits.find(...)?.traitValue`): the value the composite consumed
for that trait, or null. -/
def consumedValue (composite : ImageComposite) (trait : Trait) : Option TraitValue :=
  (composite.traits.find? fun p => p.trait.id == trait.id).bind TraitValuePair.traitValue

/-- Drop the first pool entry whose id matches the consumed value
(lines 490-496: `findIndex` followed by `splice(matchingValueIndex, 1)`);
when the consumed value is null or not in the pool, the pool is unchanged. -/
def removeMatchingValue (values : List TraitValue) (compositeValue : Option TraitValue) :
    List TraitValue :=
  match values.findIdx? (fun value => some value.id == compositeValue.map TraitValue.id) with
  | some matchingValueIndex => values.eraseIdx matchingValueIndex
  | none => values

/-- One iteration of `removeUsedAlwaysUniqueTraitValues` (lines 482-498). -/
def removeUsedStep (composite : ImageComposite) (tvd : TVDict) (trait : Trait) : TVDict :=
  if trait.isAlwaysUnique then
    let values := tvdGet tvd trait.id
    match values.findIdx? (fun value =>
        some value.id == (consumedValue composite trait).map TraitValue.id) with
    | some matchingValueIndex => tvdSet tvd trait.id (values.eraseIdx matchingValueIndex)
    | none => tvd
  else tvd

/-- `removeUsedAlwaysUniqueTraitValues` (lines 477-501): after a successful
item, drop the consumed value of every always-unique trait from its pool. -/
def removeUsedAlwaysUniqueTraitValues (traits : List Trait) (traitValues : TVDict)
    (composite : ImageComposite) : TVDict :=
  traits.foldl (removeUsedStep composite) traitValues

/-! ## LayerCompositionPlanner (lines 603-655) -/

/-- Ordering of trait-value pairs used by `sortTraitValuePairs`. -/
def tvpLE (a b : TraitValuePair) : Prop := a.trait.zIndex ≤ b.trait.zIndex

instance : DecidableRel tvpLE := fun a b => Int.decLe a.trait.zIndex b.trait.zIndex

/-- `sortTraitValuePairs` (lines 603-610): stable sort by the trait's
z-index. -/
def sortTraitValuePairs (traitValuePairs : List TraitValuePair) : List TraitValuePair :=
  List.insertionSort tvpLE traitValuePairs

/-- Ordering of z-tagged layers used by the final sort of
`sortedImageLayersInjectingCompanions`. -/
def oilLE (a b : OrderedImageLayer) : Prop := a.zIndex ≤ b.zIndex

instance : DecidableRel oilLE := fun a b => Int.decLe a.zIndex b.zIndex

/-- One iteration of the emission loop of
`sortedImageLayersInjectingCompanions` (lines 618-641): emit the pair's
primary layer tagged with the trait's z-index, then its companion (looked
up in the full catalog) tagged with the companion's own z-index. -/
def emitImageLayerStep (imageLayers : List ImageLayer)
    (imageLayerPairs : List OrderedImageLayer) (pair : TraitValuePair) :
    List OrderedImageLayer :=
  let withPrimary :=
    match pair.imageLayer with
    | some imageLayer => imageLayerPairs ++ [⟨imageLayer, pair.trait.zIndex⟩]
    | none => imageLayerPairs
  match pair.imageLayer.bind ImageLayer.companionLayerId,
        pair.imageLayer.bind ImageLayer.companionLayerZIndex with
  | some companionId, some companionZIndex =>
    match imageLayers.find? (fun l => l.id == companionId) with
    | some companionImageLayer =>
      withPrimary ++ [⟨companionImageLayer, companionZIndex⟩]
    | none => withPrimary
  | _, _ => withPrimary

/-- The emission phase of `sortedImageLayersInjectingCompanions`
(lines 616-641). -/
def imageLayerPairsFor (sortedTraitValueImagePairs : List TraitValuePair)
    (imageLayers : List ImageLayer) : List OrderedImageLayer :=
  sortedTraitValueImagePairs.foldl (emitImageLayerStep imageLayers) []

/-- `sortedImageLayersInjectingCompanions` (lines 612-655): emit, then
re-sort the combined emitted set by effective z-index. -/
def sortedImageLayersInjectingCompanions (sortedTraitValueImagePairs : List TraitValuePair)
    (imageLayers : List ImageLayer) : List ImageLayer :=
  (List.insertionSort oilLE (imageLayerPairsFor sortedTraitValueImagePairs imageLayers)).map
    OrderedImageLayer.imageLayer

/-! ## Per-item generation (`generateArtworkForItem`, lines 222-350) -/

/-- The dictionary from trait-value id to image layer built in `generate`
(lines 79-85): a JS object write per layer, so for duplicate
`traitValueId`s the last layer wins, and layers without a `traitValueId`
are skipped. -/
def traitValueIdToImageLayers (imageLayers : List ImageLayer) (traitValueId : String) :
    Option ImageLayer :=
  (imageLayers.filter fun l => l.traitValueId == some traitValueId).getLast?

/-- The uniqueness retry loop of `generateArtworkForItem` (lines 236-266),
with `retriesRemaining` as the recursion measure (20 at entry).  Note the
source decrements `retriesRemaining` and tests it against 0 after the
uniqueness check but before acting on it, so the `retriesRemaining == 1`
iteration returns failure even when its draw passed the check. -/
def drawUnusedTraitValuePairs (used : List TraitsHash) (traits : List Trait)
    (traitValues : TVDict) :
    Nat → List Frac → Option (List TraitValuePair) × List Frac
  | 0, rs => (none, rs)
  | retriesRemaining + 1, rs =>
    let draw := randomTraitValues traits traitValues rs
    let hasUnusedTraitValuePair := isUniqueTraitsHash (traitsHash draw.1) used
    if retriesRemaining == 0 then (none, draw.2)
    else if hasUnusedTraitValuePair then (some draw.1, draw.2)
    else drawUnusedTraitValuePairs used traits traitValues retriesRemaining draw.2

/-- The post-draw phase of `generateArtworkForItem` (lines 268-349):
resolve conflicts, attach each value's image layer, sort by trait z-index,
plan the layer stack, and build the composite; the compositing step fails
exactly when no layer was emitted (`compositeImages`, lines 657-691, on an
all-null input list), in which case the item yields `none`. -/
def buildComposite (traitValues : TVDict) (imageLayers : List ImageLayer)
    (conflicts : List Conflict) (traitValuePairs : List TraitValuePair)
    (rs : List Frac) : Option ImageComposite × List Frac :=
  let resolved := resolveConflicts traitValues traitValuePairs conflicts rs
  let traitValueImagePairs := resolved.1.map fun pair =>
    { pair with
      imageLayer := pair.traitValue.bind fun v => traitValueIdToImageLayers imageLayers v.id }
  let sortedTraitValueImagePairs := sortTraitValuePairs traitValueImagePairs
  let sortedImageLayers :=
    sortedImageLayersInjectingCompanions sortedTraitValueImagePairs imageLayers
  if sortedImageLayers.isEmpty then (none, resolved.2)
  else
    (some { traits := sortedTraitValueImagePairs,
            traitsHash := traitsHash sortedTraitValueImagePairs }, resolved.2)

/-- `generateArtworkForItem` (lines 222-350): find a draw whose base
fingerprint is unused within the retry budget, then build the item from
that draw. -/
def generateArtworkForItem (used : List TraitsHash) (traits : List Trait)
    (traitValues : TVDict) (imageLayers : List ImageLayer) (conflicts : List Conflict)
    (rs : List Frac) : Option ImageComposite × List Frac :=
  match drawUnusedTraitValuePairs used traits traitValues 20 rs with
  | (none, rs') => (none, rs')
  | (some traitValuePairs, rs') =>
    buildComposite traitValues imageLayers conflicts traitValuePairs rs'

/-! ## BatchOrchestrator (`generate`, lines 58-220) -/

/-- The per-item `while` loop of `generate` (lines 166-202), with explicit
fuel.  `none` means the fuel ran out with the loop still running (the
source loop does not terminate on its own in that situation, since the
`continue` branch does not advance `i`); `some composites` is the list the
function returns.  A successful item is persisted (its fingerprint joins
the registry), appended, and depletes the always-unique pools. -/
def generateLoop (traits : List Trait) (imageLayers : List ImageLayer)
    (conflicts : List Conflict) (endIndex : Nat) :
    Nat → Nat → TVDict → List TraitsHash → List ImageComposite → List Frac →
    Option (List ImageComposite)
  | 0, _, _, _, _, _ => none
  | fuel + 1, i, traitValues, used, composites, rs =>
    if i < endIndex then
      match generateArtworkForItem used traits traitValues imageLayers conflicts rs with
      | (none, rs') =>
        generateLoop traits imageLayers conflicts endIndex fuel i traitValues used
          composites rs'
      | (some composite, rs') =>
        generateLoop traits imageLayers conflicts endIndex fuel (i + 1)
          (removeUsedAlwaysUniqueTraitValues traits traitValues composite)
          (used ++ [composite.traitsHash]) (composites ++ [composite]) rs'
    else some composites

/-- `generate` (lines 58-220), restricted to its pure generation core: the
prefetched inputs, the guard clauses (lines 151-164, in source order:
no traits, empty `Object.values(traitValues)`, no image layers), and the
per-item loop.  `used0` is the registry contents from earlier batches of
the run scope; directory setup, asset downloads, and cleanup are IO-only
and dropped. -/
def generate (traits : List Trait) (fetchValues : Trait → List TraitValue)
    (imageLayers : List ImageLayer) (conflicts : List Conflict)
    (startIndex endIndex : Nat) (used0 : List TraitsHash) (fuel : Nat) (rs : List Frac) :
    Option (List ImageComposite) :=
  let traitValues := prefetchTraitValues traits fetchValues
  if traits.length == 0 then some []
  else if (traitValues.map Prod.snd).length == 0 then some []
  else if imageLayers.length == 0 then some []
  else generateLoop traits imageLayers conflicts endIndex fuel startIndex traitValues used0 [] rs

/-! ## Sampler lemmas -/

theorem getAtInt_mem {l : List α} {i : Int} {a : α} (h : getAtInt l i = some a) : a ∈ l := by
  unfold getAtInt at h
  split at h
  · exact absurd h (by simp)
  · exact List.getElem?_mem h

theorem weightedWalk_mem {r t : Frac} {values : List TraitValue} {v : TraitValue}
    (h : weightedWalk r t values = some v) : v ∈ values := by
  induction values generalizing t with
  | nil => simp [weightedWalk] at h
  | cons w rest ih =>
    rw [weightedWalk] at h
    split at h
    · simp only [Option.some.injEq] at h
      simp [h]
    · exact List.mem_cons_of_mem _ (ih h)

theorem randomValueAttempts_mem {values : List TraitValue} {e : Option String} {v : TraitValue}
    {n : Nat} {rs rs' : List Frac}
    (h : randomValueAttempts values e n rs = (some v, rs')) : v ∈ values := by
  induction n generalizing rs with
  | zero => simp [randomValueAttempts] at h
  | succ n ih =>
    rw [randomValueAttempts] at h
    simp only [randomNumber] at h
    split at h
    · exact ih h
    · simp only [Prod.mk.injEq] at h
      exact weightedWalk_mem h.1

theorem randomValue_mem {values : List TraitValue} {b : Bool} {e : Option String}
    {v : TraitValue} {rs rs' : List Frac}
    (h : randomValue values b e rs = (some v, rs')) : v ∈ values := by
  unfold randomValue at h
  split at h
  · exact getAtInt_mem ((Prod.mk.injEq _ _ _ _).mp h).1
  · exact randomValueAttempts_mem h

theorem randomValueAttempts_fst_mem {values : List TraitValue} {e : Option String}
    {v : TraitValue} {n : Nat} {rs : List Frac}
    (h : (randomValueAttempts values e n rs).1 = some v) : v ∈ values := by
  rcases hp : randomValueAttempts values e n rs with ⟨v?, rs'⟩
  rw [hp] at h
  have h' : v? = some v := h
  subst h'
  exact randomValueAttempts_mem hp

/-- The running cumulative rarity sum of `randomValue`, seeded at `t`:
the value of `totalRarityRangeMax` after walking the first `k` values. -/
def cumulativeFrom (t : Frac) (values : List TraitValue) (k : Nat) : Frac :=
  ((values.take k).map TraitValue.rarity).foldl Frac.add t

/-- The cumulative rarity sum of the first `k` values (spec §4.1). -/
def cumulativeRarity (values : List TraitValue) (k : Nat) : Frac :=
  cumulativeFrom Frac.zero values k

theorem cumulativeFrom_cons_succ (t : Frac) (v : TraitValue) (rest : List TraitValue)
    (k : Nat) : cumulativeFrom t (v :: rest) (k + 1) = cumulativeFrom (t.add v.rarity) rest k :=
  rfl

theorem cumulativeFrom_cons_one (t : Frac) (v : TraitValue) (rest : List TraitValue) :
    cumulativeFrom t (v :: rest) 1 = t.add v.rarity :=
  rfl

theorem weightedWalk_eq_none_iff (values : List TraitValue) (r t : Frac) :
    weightedWalk r t values = none ↔
      ∀ k < values.length, ¬ r ≤ cumulativeFrom t values (k + 1) := by
  induction values generalizing t with
  | nil => simp [weightedWalk]
  | cons v rest ih =>
    rw [weightedWalk]
    split
    · rename_i hle
      constructor
      · intro h; exact absurd h (by simp)
      · intro h
        exact absurd (by simpa [cumulativeFrom_cons_one] using h 0 (by simp)) (by simp [hle])
    · rename_i hnle
      rw [ih]
      constructor
      · intro h k hk
        match k with
        | 0 => simpa [cumulativeFrom_cons_one] using hnle
        | j + 1 =>
          rw [cumulativeFrom_cons_succ]
          exact h j (by simpa using hk)
      · intro h k hk
        have := h (k + 1) (by simpa using hk)
        rwa [cumulativeFrom_cons_succ] at this

theorem weightedWalk_eq_some_first (values : List TraitValue) (r t : Frac)
    (v : TraitValue) (h : weightedWalk r t values = some v) :
    ∃ k, ∃ hk : k < values.length, values.get ⟨k, hk⟩ = v ∧
      r ≤ cumulativeFrom t values (k + 1) ∧
      ∀ j < k, ¬ r ≤ cumulativeFrom t values (j + 1) := by
  induction values generalizing t with
  | nil => simp [weightedWalk] at h
  | cons w rest ih =>
    rw [weightedWalk] at h
    split at h
    · rename_i hle
      simp only [Option.some.injEq] at h
      exact ⟨0, by simp, by simpa using h, by simpa [cumulativeFrom_cons_one] using hle,
        by omega⟩
    · rename_i hnle
      obtain ⟨k, hk, hget, hcum, hfirst⟩ := ih (t.add w.rarity) h
      refine ⟨k + 1, by simpa using Nat.succ_lt_succ hk, by simpa using hget, ?_, ?_⟩
      · rwa [cumulativeFrom_cons_succ]
      · intro j hj
        match j with
        | 0 => simpa [cumulativeFrom_cons_one] using hnle
        | i + 1 =>
          rw [cumulativeFrom_cons_succ]
          exact hfirst i (by omega)

theorem randomValue_no_exclusion (values : List TraitValue) (rs : List Frac) :
    randomValue values false none rs =
      (weightedWalk (rs.headD Frac.zero) Frac.zero values, rs.tail) := by
  rw [randomValue]
  simp [randomValueAttempts, randomNumber]

/-- C4: on a non-always-unique trait without exclusion, `randomValue` draws
one random fraction and returns the first value (in sequence order) whose
cumulative rarity sum reaches it, and returns null exactly when no value's
cumulative sum does. -/
theorem randomValue_weighted_first_match (values : List TraitValue) (rs : List Frac) :
    ((randomValue values false none rs).1 = none ↔
      ∀ k < values.length, ¬ rs.headD Frac.zero ≤ cumulativeRarity values (k + 1)) ∧
    ∀ v, (randomValue values false none rs).1 = some v →
      ∃ k, ∃ hk : k < values.length, values.get ⟨k, hk⟩ = v ∧
        rs.headD Frac.zero ≤ cumulativeRarity values (k + 1) ∧
        ∀ j < k, ¬ rs.headD Frac.zero ≤ cumulativeRarity values (j + 1) := by
  rw [randomValue_no_exclusion]
  constructor
  · exact weightedWalk_eq_none_iff values (rs.headD Frac.zero) Frac.zero
  · intro v h
    exact weightedWalk_eq_some_first values (rs.headD Frac.zero) Frac.zero v h

/-- C4 witness: a concrete draw landing in the second rarity segment. -/
theorem randomValue_weighted_first_match_witness :
    ∃ k, ∃ hk : k < ([⟨"red", ⟨1,2⟩⟩, ⟨"blue", ⟨1,2⟩⟩] : List TraitValue).length,
      ([⟨"red", ⟨1,2⟩⟩, ⟨"blue", ⟨1,2⟩⟩] : List TraitValue).get ⟨k, hk⟩ = ⟨"blue", ⟨1,2⟩⟩ ∧
      ([⟨7,10⟩] : List Frac).headD Frac.zero ≤
        cumulativeRarity [⟨"red", ⟨1,2⟩⟩, ⟨"blue", ⟨1,2⟩⟩] (k + 1) ∧
      ∀ j < k, ¬ ([⟨7,10⟩] : List Frac).headD Frac.zero ≤
        cumulativeRarity [⟨"red", ⟨1,2⟩⟩, ⟨"blue", ⟨1,2⟩⟩] (j + 1) :=
  (randomValue_weighted_first_match [⟨"red", ⟨1,2⟩⟩, ⟨"blue", ⟨1,2⟩⟩] [⟨7,10⟩]).2
    ⟨"blue", ⟨1,2⟩⟩ (by decide)

theorem randomValueAttempts_ne_excluded {values : List TraitValue} {e : String}
    {v : TraitValue} {n : Nat} {rs rs' : List Frac}
    (h : randomValueAttempts values (some e) n rs = (some v, rs')) : v.id ≠ e := by
  induction n generalizing rs with
  | zero => simp [randomValueAttempts] at h
  | succ n ih =>
    rw [randomValueAttempts] at h
    simp only [randomNumber] at h
    split at h
    · exact ih h
    · rename_i hcond
      simp only [Prod.mk.injEq] at h
      intro hveq
      exact hcond (by rw [h.1]; simp [hveq])

theorem randomValueAttempts_stream (values : List TraitValue) (e : Option String) :
    ∀ (n : Nat) (rs : List Frac),
      ∃ k ≤ n, (randomValueAttempts values e n rs).2 = rs.drop k := by
  intro n
  induction n with
  | zero => exact fun rs => ⟨0, Nat.le_refl 0, rfl⟩
  | succ n ih =>
    intro rs
    rw [randomValueAttempts]
    simp only [randomNumber]
    split
    · obtain ⟨k, hk, h⟩ := ih rs.tail
      refine ⟨k + 1, by omega, ?_⟩
      rw [h, ← List.drop_one, List.drop_drop, Nat.add_comm]
    · exact ⟨1, by omega, (List.drop_one rs).symm⟩

/-- C9: with an exclusion id set, the weighted sampler consumes at most 10
draws from the random stream (its attempt budget), and on a singleton value
list whose only element is the excluded one it terminates with null. -/
theorem randomValue_exclusion_budget (values : List TraitValue) (e : String)
    (v : TraitValue) (rs : List Frac) :
    (∃ k ≤ 10, (randomValue values false (some e) rs).2 = rs.drop k) ∧
    (randomValue [v] false (some v.id) rs).1 = none := by
  constructor
  · rw [randomValue]
    simpa using randomValueAttempts_stream values (some e) 10 rs
  · rw [randomValue]
    simp only [Bool.false_eq_true, if_false]
    rcases hp : randomValueAttempts [v] (some v.id) 10 rs with ⟨v?, rs'⟩
    rcases v? with _ | w
    · rfl
    · have hw : w ∈ [v] := randomValueAttempts_mem hp
      have hne : w.id ≠ v.id := randomValueAttempts_ne_excluded hp
      simp only [List.mem_singleton] at hw
      exact absurd (hw ▸ rfl) hne

/-! ## ConflictResolver lemmas -/

theorem set_traitValue_none_eq_map (pairs : List TraitValuePair) (A : String)
    (hnd : (pairs.map fun p => p.trait.id).Nodup)
    (i1 : Nat) (h1 : pairs.findIdx? (fun p => p.trait.id == A) = some i1) :
    pairs.set i1 { pairs.getD i1 default with traitValue := none } =
      pairs.map fun p => if p.trait.id == A then { p with traitValue := none } else p := by
  obtain ⟨hi1, hfi⟩ := List.findIdx?_eq_some_iff_findIdx_eq.mp h1
  have hpred : (pairs[i1].trait.id == A) = true := by
    have hw : pairs.findIdx (fun p => p.trait.id == A) < pairs.length := by omega
    have := List.findIdx_getElem (w := hw)
    simpa [hfi] using this
  apply List.ext_getElem?
  intro n
  rw [List.getElem?_set, List.getElem?_map]
  by_cases hn : n < pairs.length
  · rw [List.getElem?_eq_getElem hn]
    by_cases hni : i1 = n
    · subst hni
      rw [if_pos rfl, if_pos hi1, List.getD_eq_getElem _ _ hi1]
      have hA : pairs[i1].trait.id = A := by simpa using hpred
      simp [hA]
    · rw [if_neg hni]
      have hne : ¬ (pairs[n].trait.id == A) = true := by
        intro hA
        apply hni
        have hAeq : pairs[i1].trait.id = A := by simpa using hpred
        have hAeq' : pairs[n].trait.id = A := by simpa using hA
        have hmap : (pairs.map fun p => p.trait.id).get ⟨i1, by simpa using hi1⟩ =
            (pairs.map fun p => p.trait.id).get ⟨n, by simpa using hn⟩ := by
          simp only [List.get_eq_getElem, List.getElem_map]
          rw [hAeq, hAeq']
        exact (hnd.getElem_inj_iff).mp hmap
      have hne' : ¬ pairs[n].trait.id = A := by simpa using hne
      simp [hne']
  · have hlen : pairs.length ≤ n := Nat.le_of_not_lt hn
    have hne : i1 ≠ n := by omega
    rw [if_neg hne, List.getElem?_eq_none hlen]
    rfl

/-- C6: a DropFirst conflict between trait-A value red and trait-B value
green nulls A's value exactly on draws that carry both matches; on a draw
where B's value is not green, or where either trait is absent, the conflict
is skipped and the draw is untouched. -/
theorem resolveConflicts_drop_first (tvd : TVDict) (pairs : List TraitValuePair)
    (rs : List Frac) (A B red green : String)
    (hnd : (pairs.map fun p => p.trait.id).Nodup) :
    (∀ pA pB, pA ∈ pairs → pA.trait.id = A →
      pA.traitValue.map TraitValue.id = some red →
      pB ∈ pairs → pB.trait.id = B →
      pB.traitValue.map TraitValue.id = some green →
      resolveConflicts tvd pairs [⟨A, B, some red, some green, .Trait1None⟩] rs =
        (pairs.map fun p => if p.trait.id == A then { p with traitValue := none } else p,
          rs)) ∧
    ((∀ p ∈ pairs, p.trait.id = B → p.traitValue.map TraitValue.id ≠ some green) ∨
        (∀ p ∈ pairs, p.trait.id ≠ A) ∨ (∀ p ∈ pairs, p.trait.id ≠ B) →
      resolveConflicts tvd pairs [⟨A, B, some red, some green, .Trait1None⟩] rs =
        (pairs, rs)) := by
  constructor
  · intro pA pB hpA hidA hvalA hpB hidB hvalB
    have hex1 : pairs.findIdx (fun p => p.trait.id == A) < pairs.length :=
      List.findIdx_lt_length.mpr ⟨pA, hpA, by simp [hidA]⟩
    have h1 : pairs.findIdx? (fun p => p.trait.id == A) =
        some (pairs.findIdx fun p => p.trait.id == A) :=
      List.findIdx?_eq_some_iff_findIdx_eq.mpr ⟨hex1, rfl⟩
    have hex2 : pairs.findIdx (fun p => p.trait.id == B) < pairs.length :=
      List.findIdx_lt_length.mpr ⟨pB, hpB, by simp [hidB]⟩
    have h2 : pairs.findIdx? (fun p => p.trait.id == B) =
        some (pairs.findIdx fun p => p.trait.id == B) :=
      List.findIdx?_eq_some_iff_findIdx_eq.mpr ⟨hex2, rfl⟩
    have hok1 : conflictValueOk pairs A (some red) = true := by
      rw [conflictValueOk, List.findIdx?_isSome, List.any_eq_true]
      exact ⟨pA, hpA, by simp [hidA, hvalA]⟩
    have hok2 : conflictValueOk pairs B (some green) = true := by
      rw [conflictValueOk, List.findIdx?_isSome, List.any_eq_true]
      exact ⟨pB, hpB, by simp [hidB, hvalB]⟩
    rw [resolveConflicts]
    simp only [List.foldl_cons, List.foldl_nil]
    simp only [resolveConflict, h1, h2, hok1, hok2, Bool.and_self, if_true]
    rw [set_traitValue_none_eq_map pairs A hnd _ h1]
  · intro hcases
    rw [resolveConflicts]
    simp only [List.foldl_cons, List.foldl_nil]
    rcases hcases with hmism | habsA | habsB
    · rcases hf1 : pairs.findIdx? (fun p => p.trait.id == A) with _ | i1
      · simp only [resolveConflict, hf1]
      · rcases hf2 : pairs.findIdx? (fun p => p.trait.id == B) with _ | i2
        · simp only [resolveConflict, hf1, hf2]
        · have hok2 : conflictValueOk pairs B (some green) = false := by
            rw [conflictValueOk, List.findIdx?_isSome]
            rw [List.any_eq_false]
            intro p hp
            by_cases hB : p.trait.id = B
            · simp [hmism p hp hB]
            · simp [hB]
          simp only [resolveConflict, hf1, hf2, hok2, Bool.and_false]
          rfl
    · have hf1 : pairs.findIdx? (fun p => p.trait.id == A) = none :=
        List.findIdx?_eq_none_iff.mpr (fun p hp => by simp [habsA p hp])
      simp only [resolveConflict, hf1]
    · have hf2 : pairs.findIdx? (fun p => p.trait.id == B) = none :=
        List.findIdx?_eq_none_iff.mpr (fun p hp => by simp [habsB p hp])
      rcases hf1 : pairs.findIdx? (fun p => p.trait.id == A) with _ | i1
      · simp only [resolveConflict, hf1]
      · simp only [resolveConflict, hf1, hf2]

/-- C6 witness: a concrete two-pair draw matching the conflict, with the
first pair's value dropped. -/
theorem resolveConflicts_drop_first_witness :
    resolveConflicts []
        [⟨⟨"A", 0, false⟩, some ⟨"red", ⟨1,1⟩⟩, none⟩,
         ⟨⟨"B", 1, false⟩, some ⟨"green", ⟨1,1⟩⟩, none⟩]
        [⟨"A", "B", some "red", some "green", .Trait1None⟩] [] =
      ([⟨⟨"A", 0, false⟩, some ⟨"red", ⟨1,1⟩⟩, none⟩,
        ⟨⟨"B", 1, false⟩, some ⟨"green", ⟨1,1⟩⟩, none⟩].map fun p =>
          if p.trait.id == "A" then { p with traitValue := none } else p, []) :=
  (resolveConflicts_drop_first []
    [⟨⟨"A", 0, false⟩, some ⟨"red", ⟨1,1⟩⟩, none⟩,
     ⟨⟨"B", 1, false⟩, some ⟨"green", ⟨1,1⟩⟩, none⟩] [] "A" "B" "red" "green"
    (by decide)).1
    ⟨⟨"A", 0, false⟩, some ⟨"red", ⟨1,1⟩⟩, none⟩
    ⟨⟨"B", 1, false⟩, some ⟨"green", ⟨1,1⟩⟩, none⟩
    (by decide) (by decide) (by decide) (by decide) (by decide) (by decide)

theorem randomValue_fst_ne_excluded {values : List TraitValue} {e : String}
    {v : TraitValue} {rs : List Frac}
    (h : (randomValue values false (some e) rs).1 = some v) : v.id ≠ e := by
  rw [randomValue] at h
  simp only [Bool.false_eq_true, if_false] at h
  rcases hp : randomValueAttempts values (some e) 10 rs with ⟨v?, rs'⟩
  rw [hp] at h
  have h' : v? = some v := h
  subst h'
  exact randomValueAttempts_ne_excluded hp

/-- C7 (amended): a matched RandomizeFirst (respectively RandomizeSecond)
conflict re-invokes the sampler on the affected trait's current pool with
the conflicted value excluded and overwrites that trait's pair with the
result; for a non-always-unique trait the replacement (when non-null)
never equals the excluded value.  (For an always-unique trait the sampler
ignores the exclusion; see the counterexample.) -/
theorem resolveConflicts_randomize (tvd : TVDict) (pairs : List TraitValuePair)
    (c : Conflict) (rs : List Frac) (i1 i2 : Nat) (pair1 pair2 : TraitValuePair)
    (redraw1 redraw2 : Option TraitValue × List Frac)
    (h1 : pairs.findIdx? (fun p => p.trait.id == c.trait1Id) = some i1)
    (h2 : pairs.findIdx? (fun p => p.trait.id == c.trait2Id) = some i2)
    (hok1 : conflictValueOk pairs c.trait1Id c.trait1ValueId = true)
    (hok2 : conflictValueOk pairs c.trait2Id c.trait2ValueId = true)
    (hpair1 : pairs.getD i1 default = pair1)
    (hpair2 : pairs.getD i2 default = pair2)
    (hredraw1 : randomValue (tvdGet tvd pair1.trait.id) pair1.trait.isAlwaysUnique
      (pair1.traitValue.map TraitValue.id) rs = redraw1)
    (hredraw2 : randomValue (tvdGet tvd pair2.trait.id) pair2.trait.isAlwaysUnique
      (pair2.traitValue.map TraitValue.id) rs = redraw2) :
    (c.resolutionType = .Trait1Random →
      resolveConflicts tvd pairs [c] rs =
        (pairs.set i1 { pair1 with traitValue := redraw1.1 }, redraw1.2) ∧
      (pair1.trait.isAlwaysUnique = false →
        ∀ v w, redraw1.1 = some v → pair1.traitValue = some w → v.id ≠ w.id)) ∧
    (c.resolutionType = .Trait2Random →
      resolveConflicts tvd pairs [c] rs =
        (pairs.set i2 { pair2 with traitValue := redraw2.1 }, redraw2.2) ∧
      (pair2.trait.isAlwaysUnique = false →
        ∀ v w, redraw2.1 = some v → pair2.traitValue = some w → v.id ≠ w.id)) := by
  obtain ⟨nv1, rsa⟩ := redraw1
  obtain ⟨nv2, rsb⟩ := redraw2
  constructor
  · intro hres
    constructor
    · rw [resolveConflicts]
      simp only [List.foldl_cons, List.foldl_nil]
      simp only [resolveConflict, h1, h2, hok1, hok2, Bool.and_self, if_true, hres]
      rw [hpair1, hredraw1]
    · intro hau v w hv hw
      rw [hau, hw] at hredraw1
      have h' : (randomValue (tvdGet tvd pair1.trait.id) false
          (Option.map TraitValue.id (some w)) rs).1 = some v := by
        rw [hredraw1]
        exact hv
      exact randomValue_fst_ne_excluded (e := w.id) h'
  · intro hres
    constructor
    · rw [resolveConflicts]
      simp only [List.foldl_cons, List.foldl_nil]
      simp only [resolveConflict, h1, h2, hok1, hok2, Bool.and_self, if_true, hres]
      rw [hpair2, hredraw2]
    · intro hau v w hv hw
      rw [hau, hw] at hredraw2
      have h' : (randomValue (tvdGet tvd pair2.trait.id) false
          (Option.map TraitValue.id (some w)) rs).1 = some v := by
        rw [hredraw2]
        exact hv
      exact randomValue_fst_ne_excluded (e := w.id) h'

/-- C7 witness: a matched RandomizeFirst conflict on a non-always-unique
trait, with the re-draw landing on the other value of the pool. -/
theorem resolveConflicts_randomize_witness :
    resolveConflicts [("A", [⟨"red", ⟨1,2⟩⟩, ⟨"blue", ⟨1,2⟩⟩])]
        [⟨⟨"A", 0, false⟩, some ⟨"red", ⟨1,2⟩⟩, none⟩,
         ⟨⟨"B", 1, false⟩, some ⟨"green", ⟨1,1⟩⟩, none⟩]
        [⟨"A", "B", some "red", some "green", .Trait1Random⟩] [⟨7,10⟩] =
      ([⟨⟨"A", 0, false⟩, some ⟨"red", ⟨1,2⟩⟩, none⟩,
        ⟨⟨"B", 1, false⟩, some ⟨"green", ⟨1,1⟩⟩, none⟩].set 0
          { (⟨⟨"A", 0, false⟩, some ⟨"red", ⟨1,2⟩⟩, none⟩ : TraitValuePair) with
            traitValue := some ⟨"blue", ⟨1,2⟩⟩ }, []) ∧
    (false = false → ∀ v w, some (⟨"blue", ⟨1,2⟩⟩ : TraitValue) = some v →
      some (⟨"red", ⟨1,2⟩⟩ : TraitValue) = some w → v.id ≠ w.id) :=
  (resolveConflicts_randomize [("A", [⟨"red", ⟨1,2⟩⟩, ⟨"blue", ⟨1,2⟩⟩])]
    [⟨⟨"A", 0, false⟩, some ⟨"red", ⟨1,2⟩⟩, none⟩,
     ⟨⟨"B", 1, false⟩, some ⟨"green", ⟨1,1⟩⟩, none⟩]
    ⟨"A", "B", some "red", some "green", .Trait1Random⟩ [⟨7,10⟩] 0 1
    ⟨⟨"A", 0, false⟩, some ⟨"red", ⟨1,2⟩⟩, none⟩
    ⟨⟨"B", 1, false⟩, some ⟨"green", ⟨1,1⟩⟩, none⟩
    (some ⟨"blue", ⟨1,2⟩⟩, [])
    (none, [])
    (by decide) (by decide) (by decide) (by decide) (by decide) (by decide)
    (by decide) (by decide)).1 rfl

/-- C7 counterexample: on an always-unique trait the sampler ignores the
exclusion, so a RandomizeFirst resolution can re-pick exactly the value
that just conflicted (here a singleton pool forces it). -/
theorem resolveConflicts_randomize_always_unique_counterexample :
    ((resolveConflicts [("A", [⟨"red", ⟨1,1⟩⟩]), ("B", [⟨"green", ⟨1,1⟩⟩])]
        [⟨⟨"A", 0, true⟩, some ⟨"red", ⟨1,1⟩⟩, none⟩,
         ⟨⟨"B", 1, false⟩, some ⟨"green", ⟨1,1⟩⟩, none⟩]
        [⟨"A", "B", some "red", some "green", .Trait1Random⟩] [⟨0,1⟩]).1.find?
      (fun p => p.trait.id == "A")).bind TraitValuePair.traitValue =
      some ⟨"red", ⟨1,1⟩⟩ := by decide

/-! ## LayerCompositionPlanner lemmas -/

instance : IsTotal OrderedImageLayer oilLE := ⟨fun a b => Int.le_total a.zIndex b.zIndex⟩

instance : IsTrans OrderedImageLayer oilLE := ⟨fun _ _ _ hab hbc => le_trans hab hbc⟩

theorem emitImageLayerStep_append (il : List ImageLayer)
    (acc : List OrderedImageLayer) (pair : TraitValuePair) :
    emitImageLayerStep il acc pair = acc ++ emitImageLayerStep il [] pair := by
  rcases hL : pair.imageLayer with _ | L
  · simp [emitImageLayerStep, hL]
  · rcases hc : L.companionLayerId with _ | cid
    · simp [emitImageLayerStep, hL, hc]
    · rcases hz : L.companionLayerZIndex with _ | z
      · simp [emitImageLayerStep, hL, hc, hz]
      · rcases hC : il.find? (fun l => l.id == cid) with _ | C
        · simp [emitImageLayerStep, hL, hc, hz, hC]
        · simp [emitImageLayerStep, hL, hc, hz, hC]

theorem foldl_emit_append (il : List ImageLayer) (l : List TraitValuePair) :
    ∀ acc : List OrderedImageLayer,
      l.foldl (emitImageLayerStep il) acc = acc ++ l.foldl (emitImageLayerStep il) [] := by
  induction l with
  | nil => simp
  | cons p rest ih =>
    intro acc
    rw [List.foldl_cons, List.foldl_cons, ih (emitImageLayerStep il acc p),
      ih (emitImageLayerStep il [] p), emitImageLayerStep_append, List.append_assoc]

theorem mem_imageLayerPairsFor_companion (pairs : List TraitValuePair)
    (catalog : List ImageLayer) (p : TraitValuePair) (L C : ImageLayer)
    (cid : String) (z : Int)
    (hp : p ∈ pairs) (hL : p.imageLayer = some L)
    (hcid : L.companionLayerId = some cid) (hz : L.companionLayerZIndex = some z)
    (hC : catalog.find? (fun il => il.id == cid) = some C) :
    (⟨C, z⟩ : OrderedImageLayer) ∈ imageLayerPairsFor pairs catalog := by
  induction pairs with
  | nil => cases hp
  | cons q rest ih =>
    rw [imageLayerPairsFor, List.foldl_cons, foldl_emit_append]
    rcases List.mem_cons.mp hp with heq | hmem
    · apply List.mem_append_left
      subst heq
      simp [emitImageLayerStep, hL, hcid, hz, hC]
    · apply List.mem_append_right
      rw [← imageLayerPairsFor]
      exact ih hmem

/-- C8: a companion layer enters the emitted set tagged with its own
companion z-index (not the parent trait's z-index), and the output of
`sortedImageLayersInjectingCompanions` is the combined emitted set re-sorted
ascending by those effective z-indexes, so the companion's position is
determined by its z-index relative to all emitted layers. -/
theorem sortedImageLayersInjectingCompanions_companion (pairs : List TraitValuePair)
    (catalog : List ImageLayer) (p : TraitValuePair) (L C : ImageLayer)
    (cid : String) (z : Int)
    (hp : p ∈ pairs) (hL : p.imageLayer = some L)
    (hcid : L.companionLayerId = some cid) (hz : L.companionLayerZIndex = some z)
    (hC : catalog.find? (fun il => il.id == cid) = some C) :
    (⟨C, z⟩ : OrderedImageLayer) ∈ imageLayerPairsFor pairs catalog ∧
    List.Sorted oilLE (List.insertionSort oilLE (imageLayerPairsFor pairs catalog)) ∧
    (List.insertionSort oilLE (imageLayerPairsFor pairs catalog)).Perm
      (imageLayerPairsFor pairs catalog) ∧
    sortedImageLayersInjectingCompanions pairs catalog =
      (List.insertionSort oilLE (imageLayerPairsFor pairs catalog)).map
        OrderedImageLayer.imageLayer ∧
    C ∈ sortedImageLayersInjectingCompanions pairs catalog := by
  have hmem := mem_imageLayerPairsFor_companion pairs catalog p L C cid z hp hL hcid hz hC
  refine ⟨hmem, List.sorted_insertionSort oilLE _, List.perm_insertionSort oilLE _, rfl, ?_⟩
  rw [sortedImageLayersInjectingCompanions]
  exact List.mem_map.mpr
    ⟨⟨C, z⟩, ((List.perm_insertionSort oilLE _).mem_iff).mpr hmem, rfl⟩

/-- Concrete data for the C8 witness: five primary layers at z-indexes 0-4
with the middle one declaring a companion at z-index 7. -/
def c8wCompanion : ImageLayer := ⟨"C", none, none, none⟩

/-- The C8 witness's primary layer carrying the companion reference. -/
def c8wLayer : ImageLayer := ⟨"L2", some "v2", some "C", some 7⟩

/-- The C8 witness's five-trait draw. -/
def c8wPairs : List TraitValuePair :=
  [⟨⟨"T0", 0, false⟩, some ⟨"v0", ⟨1,1⟩⟩, some ⟨"L0", some "v0", none, none⟩⟩,
   ⟨⟨"T1", 1, false⟩, some ⟨"v1", ⟨1,1⟩⟩, some ⟨"L1", some "v1", none, none⟩⟩,
   ⟨⟨"T2", 2, false⟩, some ⟨"v2", ⟨1,1⟩⟩, some c8wLayer⟩,
   ⟨⟨"T3", 3, false⟩, some ⟨"v3", ⟨1,1⟩⟩, some ⟨"L3", some "v3", none, none⟩⟩,
   ⟨⟨"T4", 4, false⟩, some ⟨"v4", ⟨1,1⟩⟩, some ⟨"L4", some "v4", none, none⟩⟩]

/-- The C8 witness's layer catalog (holding the companion). -/
def c8wCatalog : List ImageLayer := [c8wCompanion]

/-- C8 witness: the concrete five-layer scenario of the specification. -/
theorem sortedImageLayersInjectingCompanions_companion_witness :
    (⟨c8wCompanion, 7⟩ : OrderedImageLayer) ∈ imageLayerPairsFor c8wPairs c8wCatalog ∧
    List.Sorted oilLE (List.insertionSort oilLE (imageLayerPairsFor c8wPairs c8wCatalog)) ∧
    (List.insertionSort oilLE (imageLayerPairsFor c8wPairs c8wCatalog)).Perm
      (imageLayerPairsFor c8wPairs c8wCatalog) ∧
    sortedImageLayersInjectingCompanions c8wPairs c8wCatalog =
      (List.insertionSort oilLE (imageLayerPairsFor c8wPairs c8wCatalog)).map
        OrderedImageLayer.imageLayer ∧
    c8wCompanion ∈ sortedImageLayersInjectingCompanions c8wPairs c8wCatalog :=
  sortedImageLayersInjectingCompanions_companion c8wPairs c8wCatalog
    ⟨⟨"T2", 2, false⟩, some ⟨"v2", ⟨1,1⟩⟩, some c8wLayer⟩ c8wLayer c8wCompanion "C" 7
    (by decide) rfl rfl rfl (by decide)

/-! ## Retry-budget and abandonment behaviour -/

theorem randomValue_fst_mem {values : List TraitValue} {b : Bool} {e : Option String}
    {v : TraitValue} {rs : List Frac}
    (h : (randomValue values b e rs).1 = some v) : v ∈ values := by
  rcases hp : randomValue values b e rs with ⟨v?, rs'⟩
  rw [hp] at h
  have h' : v? = some v := h
  subst h'
  exact randomValue_mem hp

theorem drawUnusedTraitValuePairs_some_shape {used : List TraitsHash}
    {traits : List Trait} {tvd : TVDict} {n : Nat} {rs rs' : List Frac}
    {pairs : List TraitValuePair}
    (h : drawUnusedTraitValuePairs used traits tvd n rs = (some pairs, rs')) :
    ∃ rs₀, pairs = (randomTraitValues traits tvd rs₀).1 := by
  induction n generalizing rs with
  | zero => simp [drawUnusedTraitValuePairs] at h
  | succ n ih =>
    rw [drawUnusedTraitValuePairs] at h
    split at h
    · simp at h
    · split at h
      · simp only [Prod.mk.injEq, Option.some.injEq] at h
        exact ⟨rs, h.1.symm⟩
      · exact ih h

/-- Concrete data for C3: one weighted trait with two values; the
combination `red` is already used in the run scope. -/
def c3Trait : Trait := ⟨"A", 0, false⟩

/-- The C3 trait-value dictionary. -/
def c3TraitValues : TVDict := [("A", [⟨"red", ⟨1,2⟩⟩, ⟨"blue", ⟨1,2⟩⟩])]

/-- The C3 registry: the `red` draw is already consumed. -/
def c3Used : List TraitsHash := [Multiset.ofList [("A", some "red")]]

/-- The C3 random stream: 19 draws landing on the used `red`, then one
draw landing on the fresh `blue`. -/
def c3Stream : List Frac := List.replicate 19 ⟨3,10⟩ ++ [⟨7,10⟩]

/-- C3 (code bug): the 20th and last attempt of the retry budget draws a
combination that passes the uniqueness check, yet `generateArtworkForItem`
still abandons the item: the source decrements `retriesRemaining` to 0 and
takes the failure branch without consulting `hasUnusedTraitValuePair`, so a
success on the final attempt is discarded (and the "Unable to find unused
trait pair" message it logs there is false).  With one more unit of budget
the same stream yields a composite draw. -/
theorem generateArtworkForItem_discards_final_attempt :
    isUniqueTraitsHash (traitsHash (randomTraitValues [c3Trait] c3TraitValues [⟨7,10⟩]).1)
        c3Used = true ∧
    drawUnusedTraitValuePairs c3Used [c3Trait] c3TraitValues 20 c3Stream = (none, []) ∧
    (generateArtworkForItem c3Used [c3Trait] c3TraitValues
        [⟨"L", some "red", none, none⟩] [] c3Stream).1 = none ∧
    (drawUnusedTraitValuePairs c3Used [c3Trait] c3TraitValues 21 c3Stream).1.isSome = true :=
  ⟨by decide, by decide, by decide, by decide⟩

theorem generateLoop_none_of_item_none (traits : List Trait)
    (imageLayers : List ImageLayer) (conflicts : List Conflict) (endIndex : Nat)
    (tvd : TVDict) (i : Nat) (hi : i < endIndex)
    (hitem : ∀ (used : List TraitsHash) (rs : List Frac),
      (generateArtworkForItem used traits tvd imageLayers conflicts rs).1 = none) :
    ∀ (fuel : Nat) (used : List TraitsHash) (composites : List ImageComposite)
      (rs : List Frac),
      generateLoop traits imageLayers conflicts endIndex fuel i tvd used composites rs =
        none := by
  intro fuel
  induction fuel with
  | zero => intro used composites rs; rfl
  | succ fuel ih =>
    intro used composites rs
    rw [generateLoop, if_pos hi]
    rcases hit : generateArtworkForItem used traits tvd imageLayers conflicts rs with ⟨c?, rs'⟩
    have hc : c? = none := by
      have hx := hitem used rs
      rw [hit] at hx
      exact hx
    subst hc
    exact ih used composites rs'

/-- Concrete data for C2: one weighted trait. -/
def c2Traits : List Trait := [⟨"A", 0, false⟩]

/-- The C2 trait-value pool (a single certain value). -/
def c2Fetch : Trait → List TraitValue := fun _ => [⟨"red", ⟨1,1⟩⟩]

/-- The C2 prefetched dictionary. -/
def c2TraitValues : TVDict := [("A", [⟨"red", ⟨1,1⟩⟩])]

/-- The C2 layer catalog: one layer that no trait value references, so the
per-item compositing step always fails. -/
def c2ImageLayers : List ImageLayer := [⟨"L0", none, none, none⟩]

theorem c2_item_none : ∀ (used : List TraitsHash) (rs : List Frac),
    (generateArtworkForItem used c2Traits c2TraitValues c2ImageLayers [] rs).1 = none := by
  intro used rs
  rw [generateArtworkForItem]
  rcases hd : drawUnusedTraitValuePairs used c2Traits c2TraitValues 20 rs with ⟨op, rs'⟩
  rcases op with _ | pairs
  · rfl
  · obtain ⟨rs₀, hpairs⟩ := drawUnusedTraitValuePairs_some_shape hd
    subst hpairs
    rcases hv : (randomValue (tvdGet c2TraitValues "A") false none rs₀).1 with _ | v
    · simp [buildComposite, randomTraitValues, randomTraitValueStep, c2Traits, hv,
        resolveConflicts, sortTraitValuePairs, List.insertionSort,
        sortedImageLayersInjectingCompanions, imageLayerPairsFor, emitImageLayerStep]
    · have hred : v = ⟨"red", ⟨1,1⟩⟩ := by
        have hm := randomValue_fst_mem hv
        simpa [c2TraitValues, tvdGet] using hm
      subst hred
      simp [buildComposite, randomTraitValues, randomTraitValueStep, c2Traits, hv,
        resolveConflicts, sortTraitValuePairs, List.insertionSort,
        sortedImageLayersInjectingCompanions, imageLayerPairsFor, emitImageLayerStep,
        traitValueIdToImageLayers, c2ImageLayers]

/-- C2 (code bug): when `generateArtworkForItem` returns null at an index
(here: compositing always fails because no emitted layer exists), the
`while` loop of `generate` executes `continue` without advancing `i`, so it
retries the same index forever instead of skipping it; the function never
returns (under any fuel the loop is still running), and no null entry is
ever appended to the result sequence. -/
theorem generate_loops_forever_on_abandoned_index :
    ∀ (fuel : Nat) (rs : List Frac),
      generate c2Traits c2Fetch c2ImageLayers [] 0 1 [] fuel rs = none := by
  intro fuel rs
  exact generateLoop_none_of_item_none c2Traits c2ImageLayers [] 1 c2TraitValues 0
    (by omega) c2_item_none fuel [] [] rs

/-- Concrete data for C10: one trait whose value pool is empty. -/
def c10Traits : List Trait := [⟨"A", 0, false⟩]

/-- The C10 value reader: every trait's value list is empty. -/
def c10Fetch : Trait → List TraitValue := fun _ => []

/-- The C10 prefetched dictionary: one entry, holding the empty pool. -/
def c10TraitValues : TVDict := [("A", [])]

/-- The C10 layer catalog (non-empty, so the third guard does not fire). -/
def c10ImageLayers : List ImageLayer := [⟨"L", some "x", none, none⟩]

theorem c10_item_none : ∀ (used : List TraitsHash) (rs : List Frac),
    (generateArtworkForItem used c10Traits c10TraitValues c10ImageLayers [] rs).1 =
      none := by
  intro used rs
  rw [generateArtworkForItem]
  rcases hd : drawUnusedTraitValuePairs used c10Traits c10TraitValues 20 rs with ⟨op, rs'⟩
  rcases op with _ | pairs
  · rfl
  · obtain ⟨rs₀, hpairs⟩ := drawUnusedTraitValuePairs_some_shape hd
    subst hpairs
    have hv : (randomValue (tvdGet c10TraitValues "A") false none rs₀).1 = none := by
      rw [randomValue_no_exclusion]
      rfl
    simp [buildComposite, randomTraitValues, randomTraitValueStep, c10Traits, hv,
      resolveConflicts, sortTraitValuePairs, List.insertionSort,
      sortedImageLayersInjectingCompanions, imageLayerPairsFor, emitImageLayerStep]

/-- C10 (code bug): with traits present but every trait's value list empty
(and image layers present), `generate` does not return early with an empty
result: its second guard tests `Object.values(traitValues).length`, which
counts dictionary keys (one per trait) and is therefore nonzero whenever
traits exist.  The batch instead enters the item loop, every item fails
(no layer is ever emitted), and the loop never terminates. -/
theorem generate_empty_pools_not_guarded :
    (∀ t ∈ c10Traits, c10Fetch t = []) ∧ c10Traits ≠ [] ∧ c10ImageLayers ≠ [] ∧
    (prefetchTraitValues c10Traits c10Fetch).length = 1 ∧
    ∀ (fuel : Nat) (rs : List Frac),
      generate c10Traits c10Fetch c10ImageLayers [] 0 1 [] fuel rs = none := by
  refine ⟨by decide, by decide, by decide, by decide, ?_⟩
  intro fuel rs
  exact generateLoop_none_of_item_none c10Traits c10ImageLayers [] 1 c10TraitValues 0
    (by omega) c10_item_none fuel [] [] rs

/-! ## Fingerprint lemmas and per-run uniqueness -/

theorem traitsHash_perm {l₁ l₂ : List TraitValuePair} (h : l₁.Perm l₂) :
    traitsHash l₁ = traitsHash l₂ :=
  Quot.sound (h.map _)

theorem traitsHash_sortTraitValuePairs (l : List TraitValuePair) :
    traitsHash (sortTraitValuePairs l) = traitsHash l :=
  traitsHash_perm (List.perm_insertionSort tvpLE l)

theorem traitsHash_map_imageLayer (l : List TraitValuePair)
    (f : TraitValuePair → Option ImageLayer) :
    traitsHash (l.map fun p => { p with imageLayer := f p }) = traitsHash l := by
  rw [traitsHash, traitsHash, List.map_map]
  rfl

theorem drawUnusedTraitValuePairs_fresh {used : List TraitsHash} {traits : List Trait}
    {tvd : TVDict} {n : Nat} {rs rs' : List Frac} {pairs : List TraitValuePair}
    (h : drawUnusedTraitValuePairs used traits tvd n rs = (some pairs, rs')) :
    traitsHash pairs ∉ used := by
  induction n generalizing rs with
  | zero => simp [drawUnusedTraitValuePairs] at h
  | succ n ih =>
    rw [drawUnusedTraitValuePairs] at h
    split at h
    · simp at h
    · split at h
      · rename_i hu
        simp only [Prod.mk.injEq, Option.some.injEq] at h
        rw [← h.1]
        simpa [isUniqueTraitsHash] using hu
      · exact ih h

theorem buildComposite_some {tvd : TVDict} {imageLayers : List ImageLayer}
    {conflicts : List Conflict} {pairs : List TraitValuePair} {rs rs' : List Frac}
    {c : ImageComposite}
    (h : buildComposite tvd imageLayers conflicts pairs rs = (some c, rs')) :
    c.traits = sortTraitValuePairs ((resolveConflicts tvd pairs conflicts rs).1.map fun pair =>
        { pair with imageLayer := pair.traitValue.bind fun v =>
            traitValueIdToImageLayers imageLayers v.id }) ∧
      c.traitsHash = traitsHash c.traits := by
  simp only [buildComposite] at h
  split at h
  · simp at h
  · simp only [Prod.mk.injEq, Option.some.injEq] at h
    rw [← h.1]
    exact ⟨rfl, rfl⟩

theorem buildComposite_hash_no_conflicts {tvd : TVDict} {imageLayers : List ImageLayer}
    {pairs : List TraitValuePair} {rs rs' : List Frac} {c : ImageComposite}
    (h : buildComposite tvd imageLayers [] pairs rs = (some c, rs')) :
    c.traitsHash = traitsHash pairs := by
  obtain ⟨htr, hh⟩ := buildComposite_some h
  rw [hh, htr]
  have hres : resolveConflicts tvd pairs [] rs = (pairs, rs) := rfl
  rw [hres, traitsHash_sortTraitValuePairs, traitsHash_map_imageLayer]

theorem generateArtworkForItem_fresh {used : List TraitsHash} {traits : List Trait}
    {tvd : TVDict} {imageLayers : List ImageLayer} {rs rs' : List Frac}
    {c : ImageComposite}
    (h : generateArtworkForItem used traits tvd imageLayers [] rs = (some c, rs')) :
    c.traitsHash ∉ used := by
  rw [generateArtworkForItem] at h
  rcases hd : drawUnusedTraitValuePairs used traits tvd 20 rs with ⟨op, rs₁⟩
  rw [hd] at h
  rcases op with _ | pairs
  · simp at h
  · have h' : buildComposite tvd imageLayers [] pairs rs₁ = (some c, rs') := h
    rw [buildComposite_hash_no_conflicts h']
    exact drawUnusedTraitValuePairs_fresh hd

theorem generateLoop_nodup_hashes_no_conflicts (traits : List Trait)
    (imageLayers : List ImageLayer) (endIndex : Nat) (used0 : List TraitsHash) :
    ∀ (fuel i : Nat) (tvd : TVDict) (used : List TraitsHash)
      (composites res : List ImageComposite) (rs : List Frac),
      generateLoop traits imageLayers [] endIndex fuel i tvd used composites rs =
        some res →
      used.Nodup → used = used0 ++ composites.map ImageComposite.traitsHash →
      (used0 ++ res.map ImageComposite.traitsHash).Nodup := by
  intro fuel
  induction fuel with
  | zero =>
    intro i tvd used composites res rs hrun
    exact absurd hrun (by simp [generateLoop])
  | succ fuel ih =>
    intro i tvd used composites res rs hrun hnd hpre
    rw [generateLoop] at hrun
    split at hrun
    · rcases hit : generateArtworkForItem used traits tvd imageLayers [] rs with ⟨c?, rs'⟩
      rw [hit] at hrun
      rcases c? with _ | c
      · exact ih i tvd used composites res rs' hrun hnd hpre
      · have hfresh := generateArtworkForItem_fresh hit
        refine ih (i + 1) _ (used ++ [c.traitsHash]) (composites ++ [c]) res rs' hrun
          ?_ ?_
        · rw [List.nodup_append]
          exact ⟨hnd, List.nodup_singleton _,
            fun a ha hmem => by simp at hmem; exact hfresh (hmem ▸ ha)⟩
        · rw [hpre, List.map_append, List.append_assoc]
          rfl
    · simp only [Option.some.injEq] at hrun
      subst hrun
      exact hpre ▸ hnd

/-- C1 (amended): in a conflict-free run (so that the unresolved draw whose
fingerprint is uniqueness-checked and the resolved pairs whose fingerprint
is persisted coincide up to reordering), all persisted `traitsHash` values
are pairwise distinct, and distinct from the registry contents of earlier
batches of the scope.  With a non-empty conflict list the property fails:
see the counterexample. -/
theorem generate_nodup_hashes_no_conflicts (traits : List Trait)
    (fetchValues : Trait → List TraitValue) (imageLayers : List ImageLayer)
    (startIndex endIndex : Nat) (used0 : List TraitsHash) (fuel : Nat) (rs : List Frac)
    (res : List ImageComposite)
    (hrun : generate traits fetchValues imageLayers [] startIndex endIndex used0 fuel rs =
      some res)
    (hnd : used0.Nodup) :
    (used0 ++ res.map ImageComposite.traitsHash).Nodup := by
  rw [generate] at hrun
  split at hrun
  · simp only [Option.some.injEq] at hrun
    subst hrun
    simpa using hnd
  · split at hrun
    · simp only [Option.some.injEq] at hrun
      subst hrun
      simpa using hnd
    · split at hrun
      · simp only [Option.some.injEq] at hrun
        subst hrun
        simpa using hnd
      · exact generateLoop_nodup_hashes_no_conflicts traits imageLayers endIndex used0
          fuel startIndex _ used0 [] res rs hrun hnd (by simp)

/-- Concrete data for the C1 counterexample: two weighted traits and two
DropFirst conflicts that map the two distinct base draws (A=red, B=green)
and (A=blue, B=green) to the same resolved pair list (A=null, B=green). -/
def c1Traits : List Trait := [⟨"A", 0, false⟩, ⟨"B", 1, false⟩]

/-- The C1 counterexample's value pools. -/
def c1Fetch : Trait → List TraitValue := fun t =>
  if t.id == "A" then [⟨"red", ⟨1,2⟩⟩, ⟨"blue", ⟨1,2⟩⟩] else [⟨"green", ⟨1,1⟩⟩]

/-- The C1 counterexample's layer catalog (green renders, so items succeed). -/
def c1ImageLayers : List ImageLayer := [⟨"LG", some "green", none, none⟩]

/-- The C1 counterexample's conflicts. -/
def c1Conflicts : List Conflict :=
  [⟨"A", "B", some "red", some "green", .Trait1None⟩,
   ⟨"A", "B", some "blue", some "green", .Trait1None⟩]

/-- The C1 counterexample run: two items, base draws red then blue. -/
def c1Run : Option (List ImageComposite) :=
  generate c1Traits c1Fetch c1ImageLayers c1Conflicts 0 2 [] 3
    [⟨3,10⟩, ⟨9,10⟩, ⟨7,10⟩, ⟨9,10⟩]

/-- C1 counterexample: the run persists two composites and their
`traitsHash` values coincide — uniqueness was checked on the two distinct
unresolved draws, but conflict resolution mapped both to the same pair
list, whose fingerprint is what gets persisted. -/
theorem generate_duplicate_persisted_hash :
    (c1Run.getD []).length = 2 ∧
    ¬ ((c1Run.getD []).map ImageComposite.traitsHash).Nodup :=
  ⟨by decide, by decide⟩

/-- First composite of the C1 witness run. -/
def c1wComposite1 : ImageComposite :=
  { traits := [⟨⟨"A", 0, false⟩, some ⟨"red", ⟨1,2⟩⟩, some ⟨"LR", some "red", none, none⟩⟩],
    traitsHash := Multiset.ofList [("A", some "red")] }

/-- Second composite of the C1 witness run. -/
def c1wComposite2 : ImageComposite :=
  { traits := [⟨⟨"A", 0, false⟩, some ⟨"blue", ⟨1,2⟩⟩, some ⟨"LB", some "blue", none, none⟩⟩],
    traitsHash := Multiset.ofList [("A", some "blue")] }

/-- C1 witness: a concrete conflict-free two-item run, whose persisted
fingerprints are pairwise distinct. -/
theorem generate_nodup_hashes_no_conflicts_witness :
    (([] : List TraitsHash) ++
      ([c1wComposite1, c1wComposite2].map ImageComposite.traitsHash)).Nodup :=
  generate_nodup_hashes_no_conflicts [⟨"A", 0, false⟩]
    (fun _ => [⟨"red", ⟨1,2⟩⟩, ⟨"blue", ⟨1,2⟩⟩])
    [⟨"LR", some "red", none, none⟩, ⟨"LB", some "blue", none, none⟩]
    0 2 [] 3 [⟨3,10⟩, ⟨7,10⟩] [c1wComposite1, c1wComposite2]
    (by decide) (by decide)

/-! ## Always-unique depletion lemmas -/

theorem tvdGet_cons_eq (e : String × List TraitValue) (d : TVDict) (k : String)
    (h : e.1 = k) : tvdGet (e :: d) k = e.2 := by
  simp [tvdGet, List.find?_cons, h]

theorem tvdGet_cons_ne (e : String × List TraitValue) (d : TVDict) (k : String)
    (h : ¬ e.1 = k) : tvdGet (e :: d) k = tvdGet d k := by
  simp [tvdGet, List.find?_cons, h]

theorem tvdSet_cons (e : String × List TraitValue) (d : TVDict) (k : String)
    (vs : List TraitValue) :
    tvdSet (e :: d) k vs = (if e.1 == k then (e.1, vs) else e) :: tvdSet d k vs :=
  rfl

theorem tvdGet_tvdSet_self (d : TVDict) (k : String) (vs : List TraitValue)
    (h : (d.find? fun e => e.1 == k).isSome) : tvdGet (tvdSet d k vs) k = vs := by
  induction d with
  | nil => simp [List.find?] at h
  | cons e rest ih =>
    rw [tvdSet_cons]
    by_cases hk : e.1 = k
    · rw [if_pos (by simpa using hk)]
      exact tvdGet_cons_eq _ _ _ hk
    · rw [if_neg (by simpa using hk)]
      rw [tvdGet_cons_ne _ _ _ hk]
      apply ih
      rw [List.find?_cons] at h
      simpa [show (e.1 == k) = false from by simpa using hk] using h

theorem tvdGet_tvdSet_ne (d : TVDict) (k k' : String) (vs : List TraitValue)
    (h : k' ≠ k) : tvdGet (tvdSet d k vs) k' = tvdGet d k' := by
  induction d with
  | nil => rfl
  | cons e rest ih =>
    rw [tvdSet_cons]
    by_cases hk : e.1 = k
    · rw [if_pos (by simpa using hk)]
      rw [tvdGet_cons_ne (e.1, vs) _ k' (fun hc => h (by rw [← hc, hk]))]
      rw [tvdGet_cons_ne e _ k' (fun hc => h (by rw [← hc, hk]))]
      exact ih
    · rw [if_neg (by simpa using hk)]
      by_cases hk2 : e.1 = k'
      · rw [tvdGet_cons_eq _ _ _ hk2, tvdGet_cons_eq _ _ _ hk2]
      · rw [tvdGet_cons_ne _ _ _ hk2, tvdGet_cons_ne _ _ _ hk2]
        exact ih

theorem removeUsedStep_get_ne (c : ImageComposite) (tvd : TVDict) (t' : Trait)
    (k : String) (h : ¬ t'.id = k) :
    tvdGet (removeUsedStep c tvd t') k = tvdGet tvd k := by
  simp only [removeUsedStep]
  split
  · split
    · exact tvdGet_tvdSet_ne tvd t'.id k _ (fun hc => h hc.symm)
    · rfl
  · rfl

theorem removeUsedStep_get_self (c : ImageComposite) (tvd : TVDict) (t : Trait)
    (hAU : t.isAlwaysUnique = true) :
    tvdGet (removeUsedStep c tvd t) t.id =
      removeMatchingValue (tvdGet tvd t.id) (consumedValue c t) := by
  simp only [removeUsedStep, removeMatchingValue, hAU, if_true]
  rcases hf : (tvdGet tvd t.id).findIdx? (fun value =>
      some value.id == (consumedValue c t).map TraitValue.id) with _ | kidx
  · rw [hf]
  · rw [hf]
    have hpres : (tvd.find? fun e => e.1 == t.id).isSome := by
      rcases hp : tvd.find? fun e => e.1 == t.id with _ | e
      · exfalso
        have hnil : tvdGet tvd t.id = [] := by simp [tvdGet, hp]
        rw [hnil] at hf
        simp [List.findIdx?_nil] at hf
      · rw [hp]
        rfl
    exact tvdGet_tvdSet_self tvd t.id _ hpres

theorem removeUsed_get_notin (c : ImageComposite) (k : String) :
    ∀ (traits : List Trait) (tvd : TVDict), (∀ u ∈ traits, u.id ≠ k) →
      tvdGet (removeUsedAlwaysUniqueTraitValues traits tvd c) k = tvdGet tvd k := by
  intro traits
  induction traits with
  | nil => intro tvd _; rfl
  | cons t' rest ih =>
    intro tvd hids
    show tvdGet (removeUsedAlwaysUniqueTraitValues rest (removeUsedStep c tvd t') c) k =
      tvdGet tvd k
    rw [ih _ (fun u hu => hids u (List.mem_cons_of_mem _ hu))]
    exact removeUsedStep_get_ne c tvd t' k (hids t' (List.mem_cons_self _ _))

theorem removeUsed_get_eq (c : ImageComposite) (t : Trait)
    (hAU : t.isAlwaysUnique = true) :
    ∀ (traits : List Trait) (tvd : TVDict), t ∈ traits → (traits.map Trait.id).Nodup →
      tvdGet (removeUsedAlwaysUniqueTraitValues traits tvd c) t.id =
        removeMatchingValue (tvdGet tvd t.id) (consumedValue c t) := by
  intro traits
  induction traits with
  | nil => intro tvd h; cases h
  | cons t' rest ih =>
    intro tvd hmem hnd
    rw [List.map_cons, List.nodup_cons] at hnd
    show tvdGet (removeUsedAlwaysUniqueTraitValues rest (removeUsedStep c tvd t') c) t.id = _
    rcases List.mem_cons.mp hmem with heq | hmem'
    · subst heq
      have hrest : ∀ u ∈ rest, u.id ≠ t.id := by
        intro u hu hc
        exact hnd.1 (hc ▸ List.mem_map_of_mem Trait.id hu)
      rw [removeUsed_get_notin c t.id rest _ hrest]
      exact removeUsedStep_get_self c tvd t hAU
    · have hne : ¬ t'.id = t.id := by
        intro hc
        exact hnd.1 (hc ▸ List.mem_map_of_mem Trait.id hmem')
      rw [ih (removeUsedStep c tvd t') hmem' hnd.2]
      rw [removeUsedStep_get_ne c tvd t' t.id hne]

theorem removeMatchingValue_eq_eraseP (values : List TraitValue) (cv : Option TraitValue) :
    removeMatchingValue values cv =
      values.eraseP fun value => some value.id == cv.map TraitValue.id := by
  induction values with
  | nil => rfl
  | cons w rest ih =>
    simp only [removeMatchingValue] at ih ⊢
    rw [List.findIdx?_cons]
    by_cases hw : (some w.id == cv.map TraitValue.id) = true
    · rw [if_pos hw, @List.eraseP_cons_of_pos _ w rest
        (fun value => some value.id == cv.map TraitValue.id) hw]
      rfl
    · rw [if_neg hw, @List.eraseP_cons_of_neg _ w rest
        (fun value => some value.id == cv.map TraitValue.id) hw, List.findIdx?_start_succ]
      rcases hf : rest.findIdx? (fun value => some value.id == cv.map TraitValue.id)
        with _ | k
      · rw [hf] at ih
        have hrest : rest = List.eraseP
            (fun value => some value.id == cv.map TraitValue.id) rest := ih
        simp only [hf, Option.map_none']
        rw [← hrest]
      · rw [hf] at ih
        have hrest : rest.eraseIdx k = List.eraseP
            (fun value => some value.id == cv.map TraitValue.id) rest := ih
        simp only [hf, Option.map_some']
        show w :: rest.eraseIdx k = _
        rw [hrest]

theorem removeMatchingValue_none (values : List TraitValue) :
    removeMatchingValue values none = values := by
  rw [removeMatchingValue_eq_eraseP]
  apply List.eraseP_of_forall_not
  intro a _
  simp

theorem removeMatchingValue_ids_sublist (values : List TraitValue)
    (cv : Option TraitValue) :
    ((removeMatchingValue values cv).map TraitValue.id).Sublist
      (values.map TraitValue.id) := by
  rw [removeMatchingValue_eq_eraseP]
  exact (List.eraseP_sublist values).map TraitValue.id

theorem removeMatchingValue_not_mem (values : List TraitValue) (v : TraitValue)
    (hnd : (values.map TraitValue.id).Nodup) (hv : v ∈ values) :
    v.id ∉ (removeMatchingValue values (some v)).map TraitValue.id := by
  rw [removeMatchingValue_eq_eraseP]
  induction values with
  | nil => cases hv
  | cons w rest ih =>
    rw [List.map_cons, List.nodup_cons] at hnd
    by_cases hw : w.id = v.id
    · rw [@List.eraseP_cons_of_pos _ w rest
        (fun value => some value.id == Option.map TraitValue.id (some v)) (by simp [hw])]
      rw [← hw]
      exact hnd.1
    · rw [@List.eraseP_cons_of_neg _ w rest
        (fun value => some value.id == Option.map TraitValue.id (some v)) (by simp [hw])]
      have hv' : v ∈ rest := by
        rcases List.mem_cons.mp hv with h | h
        · exact absurd (by rw [h]) hw
        · exact h
      rw [List.map_cons]
      intro hc
      rcases List.mem_cons.mp hc with h | h
      · exact hw h.symm
      · exact ih hnd.2 hv' h

theorem randomTraitValues_sound (tvd : TVDict) (traits : List Trait) :
    ∀ st : List TraitValuePair × List Frac,
      (∀ p ∈ st.1, ∀ v, p.traitValue = some v → v ∈ tvdGet tvd p.trait.id) →
      ∀ p ∈ (traits.foldl (randomTraitValueStep tvd) st).1, ∀ v,
        p.traitValue = some v → v ∈ tvdGet tvd p.trait.id := by
  induction traits with
  | nil => intro st hst; exact hst
  | cons t rest ih =>
    intro st hst
    rw [List.foldl_cons]
    apply ih
    intro p hp v hv
    have hp' : p ∈ st.1 ++ [⟨t, (randomValue (tvdGet tvd t.id) t.isAlwaysUnique
        none st.2).1, none⟩] := hp
    rcases List.mem_append.mp hp' with hmem | hmem
    · exact hst p hmem v hv
    · have hpe := List.mem_singleton.mp hmem
      subst hpe
      exact randomValue_fst_mem hv

theorem resolveConflict_sound (tvd : TVDict) (st : List TraitValuePair × List Frac)
    (c : Conflict)
    (hst : ∀ p ∈ st.1, ∀ v, p.traitValue = some v → v ∈ tvdGet tvd p.trait.id) :
    ∀ p ∈ (resolveConflict tvd st c).1, ∀ v,
      p.traitValue = some v → v ∈ tvdGet tvd p.trait.id := by
  rcases h1 : st.1.findIdx? (fun p => p.trait.id == c.trait1Id) with _ | i1
  · intro p hp
    refine hst p ?_
    have : (resolveConflict tvd st c).1 = st.1 := by
      simp only [resolveConflict, h1]
    rwa [this] at hp
  · rcases h2 : st.1.findIdx? (fun p => p.trait.id == c.trait2Id) with _ | i2
    · intro p hp
      refine hst p ?_
      have : (resolveConflict tvd st c).1 = st.1 := by
        simp only [resolveConflict, h1, h2]
      rwa [this] at hp
    · by_cases hok : (conflictValueOk st.1 c.trait1Id c.trait1ValueId &&
          conflictValueOk st.1 c.trait2Id c.trait2ValueId) = true
      · rcases hres : c.resolutionType
        · intro p hp
          have hp' : p ∈ st.1.set i1
              { st.1.getD i1 default with traitValue := none } := by
            have : (resolveConflict tvd st c).1 = st.1.set i1
                { st.1.getD i1 default with traitValue := none } := by
              simp only [resolveConflict, h1, h2, hok, hres, if_true]
            rwa [this] at hp
          rcases List.mem_or_eq_of_mem_set hp' with hmem | heq
          · exact hst p hmem
          · subst heq
            intro v hv
            cases hv
        · intro p hp
          have hp' : p ∈ st.1.set i2
              { st.1.getD i2 default with traitValue := none } := by
            have : (resolveConflict tvd st c).1 = st.1.set i2
                { st.1.getD i2 default with traitValue := none } := by
              simp only [resolveConflict, h1, h2, hok, hres, if_true]
            rwa [this] at hp
          rcases List.mem_or_eq_of_mem_set hp' with hmem | heq
          · exact hst p hmem
          · subst heq
            intro v hv
            cases hv
        · intro p hp
          have heqr : (resolveConflict tvd st c).1 = st.1.set i1
              { st.1.getD i1 default with traitValue :=
                (randomValue (tvdGet tvd (st.1.getD i1 default).trait.id)
                  (st.1.getD i1 default).trait.isAlwaysUnique
                  ((st.1.getD i1 default).traitValue.map TraitValue.id) st.2).1 } := by
            simp only [resolveConflict, h1, h2, hok, hres, if_true]
          rw [heqr] at hp
          rcases List.mem_or_eq_of_mem_set hp with hmem | heq
          · exact hst p hmem
          · subst heq
            intro v hv
            exact randomValue_fst_mem hv
        · intro p hp
          have heqr : (resolveConflict tvd st c).1 = st.1.set i2
              { st.1.getD i2 default with traitValue :=
                (randomValue (tvdGet tvd (st.1.getD i2 default).trait.id)
                  (st.1.getD i2 default).trait.isAlwaysUnique
                  ((st.1.getD i2 default).traitValue.map TraitValue.id) st.2).1 } := by
            simp only [resolveConflict, h1, h2, hok, hres, if_true]
          rw [heqr] at hp
          rcases List.mem_or_eq_of_mem_set hp with hmem | heq
          · exact hst p hmem
          · subst heq
            intro v hv
            exact randomValue_fst_mem hv
      · intro p hp
        refine hst p ?_
        have hok' : (conflictValueOk st.1 c.trait1Id c.trait1ValueId &&
            conflictValueOk st.1 c.trait2Id c.trait2ValueId) = false :=
          Bool.eq_false_iff.mpr hok
        have : (resolveConflict tvd st c).1 = st.1 := by
          simp only [resolveConflict, h1, h2, hok', Bool.false_eq_true, if_false]
        rwa [this] at hp

theorem resolveConflicts_sound (tvd : TVDict) (conflicts : List Conflict) :
    ∀ st : List TraitValuePair × List Frac,
      (∀ p ∈ st.1, ∀ v, p.traitValue = some v → v ∈ tvdGet tvd p.trait.id) →
      ∀ p ∈ (conflicts.foldl (resolveConflict tvd) st).1, ∀ v,
        p.traitValue = some v → v ∈ tvdGet tvd p.trait.id := by
  induction conflicts with
  | nil => intro st hst; exact hst
  | cons c rest ih =>
    intro st hst
    rw [List.foldl_cons]
    exact ih (resolveConflict tvd st c) (resolveConflict_sound tvd st c hst)

theorem generateArtworkForItem_traits_sound {used : List TraitsHash}
    {traits : List Trait} {tvd : TVDict} {imageLayers : List ImageLayer}
    {conflicts : List Conflict} {rs rs' : List Frac} {c : ImageComposite}
    (h : generateArtworkForItem used traits tvd imageLayers conflicts rs = (some c, rs')) :
    ∀ p ∈ c.traits, ∀ v, p.traitValue = some v → v ∈ tvdGet tvd p.trait.id := by
  rw [generateArtworkForItem] at h
  rcases hd : drawUnusedTraitValuePairs used traits tvd 20 rs with ⟨op, rs₁⟩
  rw [hd] at h
  rcases op with _ | pairs
  · simp at h
  · have h' : buildComposite tvd imageLayers conflicts pairs rs₁ = (some c, rs') := h
    obtain ⟨htr, _⟩ := buildComposite_some h'
    obtain ⟨rs₀, hpairs⟩ := drawUnusedTraitValuePairs_some_shape hd
    intro p hp v hv
    rw [htr] at hp
    have hp2 := (List.perm_insertionSort tvpLE _).mem_iff.mp hp
    obtain ⟨q, hq, hgq⟩ := List.mem_map.mp hp2
    have hsound : ∀ x ∈ (resolveConflicts tvd pairs conflicts rs₁).1, ∀ w,
        x.traitValue = some w → w ∈ tvdGet tvd x.trait.id := by
      subst hpairs
      exact resolveConflicts_sound tvd conflicts _
        (randomTraitValues_sound tvd traits ([], rs₀)
          (fun x hx => absurd hx (List.not_mem_nil x)))
    rw [← hgq]
    exact hsound q hq v (by rw [← hgq] at hv; exact hv)

theorem generateArtworkForItem_consumed_mem {used : List TraitsHash}
    {traits : List Trait} {tvd : TVDict} {imageLayers : List ImageLayer}
    {conflicts : List Conflict} {rs rs' : List Frac} {c : ImageComposite}
    (h : generateArtworkForItem used traits tvd imageLayers conflicts rs = (some c, rs'))
    (t : Trait) (v : TraitValue) (hv : consumedValue c t = some v) :
    v ∈ tvdGet tvd t.id := by
  rw [consumedValue] at hv
  rcases hf : c.traits.find? (fun p => p.trait.id == t.id) with _ | pair
  · rw [hf] at hv
    cases hv
  · rw [hf] at hv
    have hmem := List.mem_of_find?_eq_some hf
    have hid : pair.trait.id = t.id := by simpa using List.find?_some hf
    have hsound := generateArtworkForItem_traits_sound h pair hmem v (by simpa using hv)
    rwa [hid] at hsound

/-- The ids of the values an output sequence of composites consumed for
trait `t` (one entry per composite whose `t`-slot is non-null). -/
def consumedIds (composites : List ImageComposite) (t : Trait) : List String :=
  composites.filterMap fun c => (consumedValue c t).map TraitValue.id

theorem removeMatchingValue_sublist (values : List TraitValue) (cv : Option TraitValue) :
    (removeMatchingValue values cv).Sublist values := by
  rw [removeMatchingValue_eq_eraseP]
  exact List.eraseP_sublist values

theorem consumedIds_length (res : List ImageComposite) (t : Trait) :
    (consumedIds res t).length = res.countP fun c => (consumedValue c t).isSome := by
  induction res with
  | nil => rfl
  | cons c rest ih =>
    rcases hv : consumedValue c t with _ | v
    · simp only [consumedIds, List.filterMap_cons, hv, Option.map_none', List.countP_cons]
      simp only [consumedIds] at ih
      simp [ih, hv]
    · simp only [consumedIds, List.filterMap_cons, hv, Option.map_some', List.countP_cons]
      simp only [consumedIds] at ih
      simp [ih, hv]

theorem generateLoop_alwaysUnique_inv (traits : List Trait)
    (imageLayers : List ImageLayer) (conflicts : List Conflict) (endIndex : Nat)
    (t : Trait) (ht : t ∈ traits) (hAU : t.isAlwaysUnique = true)
    (hndids : (traits.map Trait.id).Nodup) (P0 : List TraitValue) :
    ∀ (fuel i : Nat) (tvd : TVDict) (used : List TraitsHash)
      (composites res : List ImageComposite) (rs : List Frac),
      generateLoop traits imageLayers conflicts endIndex fuel i tvd used composites rs =
        some res →
      ((tvdGet tvd t.id).map TraitValue.id).Nodup →
      (∀ v ∈ tvdGet tvd t.id, v ∈ P0) →
      (consumedIds composites t).Nodup →
      (∀ s ∈ consumedIds composites t, s ∈ P0.map TraitValue.id) →
      (∀ s ∈ consumedIds composites t, s ∉ (tvdGet tvd t.id).map TraitValue.id) →
      (consumedIds res t).Nodup ∧
        ∀ s ∈ consumedIds res t, s ∈ P0.map TraitValue.id := by
  intro fuel
  induction fuel with
  | zero =>
    intro i tvd used composites res rs hrun
    exact absurd hrun (by simp [generateLoop])
  | succ fuel ih =>
    intro i tvd used composites res rs hrun hpnd hpsub hcnd hcsub hdisj
    rw [generateLoop] at hrun
    split at hrun
    · rcases hit : generateArtworkForItem used traits tvd imageLayers conflicts rs
        with ⟨c?, rs'⟩
      rw [hit] at hrun
      rcases c? with _ | c
      · exact ih i tvd used composites res rs' hrun hpnd hpsub hcnd hcsub hdisj
      · have hpool : tvdGet (removeUsedAlwaysUniqueTraitValues traits tvd c) t.id =
            removeMatchingValue (tvdGet tvd t.id) (consumedValue c t) :=
          removeUsed_get_eq c t hAU traits tvd ht hndids
        rcases hv : consumedValue c t with _ | v
        · have hcons : consumedIds (composites ++ [c]) t = consumedIds composites t := by
            simp [consumedIds, hv]
          refine ih (i + 1) _ (used ++ [c.traitsHash]) (composites ++ [c]) res rs' hrun
            ?_ ?_ ?_ ?_ ?_
          · rw [hpool, hv, removeMatchingValue_none]
            exact hpnd
          · rw [hpool, hv, removeMatchingValue_none]
            exact hpsub
          · rw [hcons]
            exact hcnd
          · rw [hcons]
            exact hcsub
          · rw [hcons, hpool, hv, removeMatchingValue_none]
            exact hdisj
        · have hvmem : v ∈ tvdGet tvd t.id :=
            generateArtworkForItem_consumed_mem hit t v hv
          have hcons : consumedIds (composites ++ [c]) t =
              consumedIds composites t ++ [v.id] := by
            simp [consumedIds, hv]
          refine ih (i + 1) _ (used ++ [c.traitsHash]) (composites ++ [c]) res rs' hrun
            ?_ ?_ ?_ ?_ ?_
          · rw [hpool, hv]
            exact List.Nodup.sublist
              ((removeMatchingValue_sublist _ _).map TraitValue.id) hpnd
          · rw [hpool, hv]
            exact fun w hw =>
              hpsub w ((removeMatchingValue_sublist _ _).subset hw)
          · rw [hcons, List.nodup_append]
            refine ⟨hcnd, List.nodup_singleton _, ?_⟩
            intro s hs hsmem
            have hs1 : s = v.id := by simpa using hsmem
            exact hdisj s hs (hs1 ▸ List.mem_map_of_mem TraitValue.id hvmem)
          · rw [hcons]
            intro s hs
            rcases List.mem_append.mp hs with h1 | h1
            · exact hcsub s h1
            · have hs1 : s = v.id := by simpa using h1
              exact hs1 ▸ List.mem_map_of_mem TraitValue.id (hpsub v hvmem)
          · rw [hcons, hpool, hv]
            intro s hs
            rcases List.mem_append.mp hs with h1 | h1
            · intro hc
              exact hdisj s h1
                (((removeMatchingValue_sublist _ _).map TraitValue.id).subset hc)
            · have hs1 : s = v.id := by simpa using h1
              exact hs1 ▸ removeMatchingValue_not_mem (tvdGet tvd t.id) v hpnd hvmem
    · simp only [Option.some.injEq] at hrun
      subst hrun
      exact ⟨hcnd, hcsub⟩

theorem tvdGet_prefetch (traits : List Trait) (fetchValues : Trait → List TraitValue)
    (t : Trait) :
    t ∈ traits → (traits.map Trait.id).Nodup →
      tvdGet (prefetchTraitValues traits fetchValues) t.id = fetchValues t := by
  induction traits with
  | nil => intro h; cases h
  | cons t' rest ih =>
    intro hmem hnd
    rw [List.map_cons, List.nodup_cons] at hnd
    rcases List.mem_cons.mp hmem with heq | hmem'
    · subst heq
      exact tvdGet_cons_eq (t.id, fetchValues t) _ t.id rfl
    · have hne : ¬ t'.id = t.id := fun hc =>
        hnd.1 (hc ▸ List.mem_map_of_mem Trait.id hmem')
      rw [show prefetchTraitValues (t' :: rest) fetchValues =
        (t'.id, fetchValues t') :: prefetchTraitValues rest fetchValues from rfl]
      rw [tvdGet_cons_ne _ _ _ hne]
      exact ih hmem' hnd.2

/-- C5: for an always-unique trait, the consumed value is removed from the
in-memory pool after each successful item, so across one batch the trait's
non-null consumed value ids are pairwise distinct and at most pool-size
many composites reference the trait with a non-null value. -/
theorem generate_always_unique_depletion (traits : List Trait)
    (fetchValues : Trait → List TraitValue) (imageLayers : List ImageLayer)
    (conflicts : List Conflict) (startIndex endIndex : Nat) (used0 : List TraitsHash)
    (fuel : Nat) (rs : List Frac) (res : List ImageComposite) (t : Trait)
    (ht : t ∈ traits) (hAU : t.isAlwaysUnique = true)
    (hndids : (traits.map Trait.id).Nodup)
    (hpool : ((fetchValues t).map TraitValue.id).Nodup)
    (hrun : generate traits fetchValues imageLayers conflicts startIndex endIndex used0
      fuel rs = some res) :
    (consumedIds res t).Nodup ∧
      res.countP (fun c => (consumedValue c t).isSome) ≤ (fetchValues t).length := by
  have hempty : (consumedIds ([] : List ImageComposite) t).Nodup ∧
      ([] : List ImageComposite).countP (fun c => (consumedValue c t).isSome) ≤
        (fetchValues t).length := by
    simp [consumedIds]
  rw [generate] at hrun
  split at hrun
  · simp only [Option.some.injEq] at hrun
    subst hrun
    exact hempty
  · split at hrun
    · simp only [Option.some.injEq] at hrun
      subst hrun
      exact hempty
    · split at hrun
      · simp only [Option.some.injEq] at hrun
        subst hrun
        exact hempty
      · have hinit : tvdGet (prefetchTraitValues traits fetchValues) t.id = fetchValues t :=
          tvdGet_prefetch traits fetchValues t ht hndids
        obtain ⟨h1, h2⟩ := generateLoop_alwaysUnique_inv traits imageLayers conflicts
          endIndex t ht hAU hndids (fetchValues t) fuel startIndex _ used0 [] res rs hrun
          (by rw [hinit]; exact hpool)
          (by rw [hinit]; exact fun v hv => hv)
          (by simp [consumedIds])
          (by simp [consumedIds])
          (by simp [consumedIds])
        refine ⟨h1, ?_⟩
        rw [← consumedIds_length]
        calc (consumedIds res t).length = (consumedIds res t).toFinset.card :=
              (List.toFinset_card_of_nodup h1).symm
          _ ≤ ((fetchValues t).map TraitValue.id).toFinset.card := by
              apply Finset.card_le_card
              intro s hs
              exact List.mem_toFinset.mpr (h2 s (List.mem_toFinset.mp hs))
          _ ≤ ((fetchValues t).map TraitValue.id).length :=
              List.toFinset_card_le _
          _ = (fetchValues t).length := by simp

/-- First composite of the C5 witness run. -/
def c5wComposite1 : ImageComposite :=
  { traits := [⟨⟨"A", 0, true⟩, some ⟨"u1", ⟨1,2⟩⟩, some ⟨"L1", some "u1", none, none⟩⟩],
    traitsHash := Multiset.ofList [("A", some "u1")] }

/-- Second composite of the C5 witness run. -/
def c5wComposite2 : ImageComposite :=
  { traits := [⟨⟨"A", 0, true⟩, some ⟨"u2", ⟨1,2⟩⟩, some ⟨"L2", some "u2", none, none⟩⟩],
    traitsHash := Multiset.ofList [("A", some "u2")] }

/-- C5 witness: a two-item run on a two-value always-unique trait consumes
each value exactly once. -/
theorem generate_always_unique_depletion_witness :
    (consumedIds [c5wComposite1, c5wComposite2] ⟨"A", 0, true⟩).Nodup ∧
      ([c5wComposite1, c5wComposite2].countP fun c =>
        (consumedValue c ⟨"A", 0, true⟩).isSome) ≤
        ((fun _ : Trait => ([⟨"u1", ⟨1,2⟩⟩, ⟨"u2", ⟨1,2⟩⟩] : List TraitValue))
          ⟨"A", 0, true⟩).length :=
  generate_always_unique_depletion [⟨"A", 0, true⟩]
    (fun _ => [⟨"u1", ⟨1,2⟩⟩, ⟨"u2", ⟨1,2⟩⟩])
    [⟨"L1", some "u1", none, none⟩, ⟨"L2", some "u2", none, none⟩] []
    0 2 [] 3 [⟨0,1⟩, ⟨0,1⟩] [c5wComposite1, c5wComposite2] ⟨"A", 0, true⟩
    (by decide) rfl (by decide) (by decide) (by decide)
